import Mathlib

/-!
Verification development for the infra-check repository: a static analyzer
for three infrastructure-as-code dialects (Terraform/HCL, Ansible/YAML,
Puppet manifests).  Each dialect exposes a function
Scan(rootPath) -> (findings, error).

The embedding below models the three scanners shallowly:
  * the HCL parser, the YAML decoder, the OS file reader and the external
    puppet-lint executable are third-party collaborators; a file is
    therefore represented by the outcome those collaborators produce for it
    (parse failure diagnostics, decoded plays, read failure, captured
    linter output);
  * Go maps are represented as association lists whose list order is the
    iteration order the Go runtime happened to produce for the single
    range statement consuming them (Go randomizes that order per run);
  * directory traversal (filepath.Walk) is represented by the ordered list
    of events the walk yields: either a traversal error or a regular
    file / directory entry.
All functions are computable and mirror the Go sources statement by
statement; control-flow subtleties of the sources (the continue statements
inside the switch in terraform.go, the break statements in the keyword
loops) are reproduced exactly.
-/

namespace InfraCheck

/-- Severity mirrors internal/finding/finding.go (INFO, WARN, ERROR). -/
inductive Severity where
  | info
  | warning
  | error
  deriving DecidableEq, Repr

/-- Finding mirrors internal/finding/finding.go. -/
structure Finding where
  file : String
  severity : Severity
  message : String
  deriving DecidableEq, Repr

/-! ### String helpers mirroring the Go standard library -/

/-- Boolean test that pat is a leading segment of cs (Go: strings.HasPrefix on rune lists). -/
def leads : List Char → List Char → Bool
  | [], _ => true
  | _ :: _, [] => false
  | p :: ps, c :: cs => p = c && leads ps cs

/-- Containment of pat inside cs, mirroring Go strings.Contains. -/
def containsL (pat : List Char) : List Char → Bool
  | [] => pat.isEmpty
  | c :: cs => leads pat (c :: cs) || containsL pat cs

/-- Go strings.Contains(s, pat). -/
def containsS (s pat : String) : Bool :=
  containsL pat.toList s.toList

/-- Go strings.ToLower, restricted to the per-character folding Lean provides
(identical to Go on ASCII input, which is all the checks compare against). -/
def lowerS (s : String) : String :=
  String.mk (s.toList.map Char.toLower)

/-- Whitespace class shared by the Go regexp shorthand and TrimSpace (ASCII part). -/
def isSpaceGo (c : Char) : Bool :=
  c = ' ' || c = '\t' || c = '\n' || c = '\r' || c = '\x0c'

/-- Position of the first occurrence of sep: the text before it and the text after it. -/
def breakFirst (sep : List Char) : List Char → Option (List Char × List Char)
  | [] => if sep.isEmpty then some ([], []) else none
  | c :: cs =>
    if leads sep (c :: cs) then some ([], (c :: cs).drop sep.length)
    else
      match breakFirst sep cs with
      | some (pre, post) => some (c :: pre, post)
      | none => none

/-- Fuel-driven splitting at every occurrence of sep; fuel bounds the number
of separators, so the input length is always enough for a non-empty sep. -/
def splitFuel (sep : List Char) : Nat → List Char → List (List Char)
  | 0, s => [s]
  | fuel + 1, s =>
    match breakFirst sep s with
    | none => [s]
    | some (pre, post) => pre :: splitFuel sep fuel post

/-- Go strings.Split(s, sep) for a non-empty separator, over rune lists. -/
def splitL (sep s : List Char) : List (List Char) :=
  splitFuel sep s.length s

/-- Go strings.Split(s, sep) for a non-empty separator. -/
def splitS (s sep : String) : List String :=
  (splitL sep.toList s.toList).map String.mk

/-- Whitespace class of Go unicode.IsSpace, consulted by strings.TrimSpace:
the ASCII controls and space, next-line, no-break space, and the Unicode
White_Space code points. -/
def isSpaceUnicode (c : Char) : Bool :=
  c = ' ' || c = '\t' || c = '\n' || c = '\x0b' || c = '\x0c' || c = '\r'
  || c = '\x85' || c = '\xa0' || c = '\u1680'
  || ('\u2000' ≤ c && c ≤ '\u200a') || c = '\u2028' || c = '\u2029'
  || c = '\u202f' || c = '\u205f' || c = '\u3000'

/-- Go strings.TrimSpace over a rune list. -/
def trimL (cs : List Char) : List Char :=
  ((cs.dropWhile isSpaceUnicode).reverse.dropWhile isSpaceUnicode).reverse

/-- Go strings.TrimSpace. -/
def trimS (s : String) : String :=
  String.mk (trimL s.toList)

/-- Go filepath.Ext: the suffix of the final path element starting at its last dot, or the empty string. -/
def extOf (p : String) : String :=
  let rev := p.toList.reverse
  let fileRev := rev.takeWhile (fun c => c ≠ '/')
  if fileRev.contains '.' then
    String.mk ('.' :: (fileRev.takeWhile (fun c => c ≠ '.')).reverse)
  else ""

/-- First-match lookup in an association list; mirrors Go map indexing (keys of a Go map are unique). -/
def lookupA {α : Type} : List (String × α) → String → Option α
  | [], _ => none
  | (a, v) :: rest, k => if a = k then some v else lookupA rest k

/-! ### Directory walk (filepath.Walk), shared by the three scanners

The walk callback in each scanner returns the incoming error unchanged
(aborting the walk) and skips directories; otherwise it filters on the
file extension and scans the file.  An event list abstracts the walk:
an errE event is an entry handed to the callback with a non-nil error. -/

inductive WEvent (γ : Type) where
  | errE (e : String)
  | fileE (path : String) (isDir : Bool) (content : γ)

/-- Generic model of the walk loop each Scan runs: stops at the first
traversal error (returning it), skips directories and files with an
unexpected extension, and concatenates per-file findings in visit order. -/
def walkScan {γ : Type} (extOk : String → Bool) (scanFile : String → γ → List Finding) :
    List (WEvent γ) → List Finding × Option String
  | [] => ([], none)
  | .errE e :: _ => ([], some e)
  | .fileE p d c :: rest =>
    if d then walkScan extOk scanFile rest
    else if extOk (extOf p) then
      ((scanFile p c) ++ (walkScan extOk scanFile rest).1, (walkScan extOk scanFile rest).2)
    else walkScan extOk scanFile rest

/-! ### Terraform dialect (internal/terraform/terraform.go) -/

/-- Statically evaluated HCL attribute value (go-cty value). -/
inductive CtyVal where
  | str (s : String)
  | num (n : Int)
  | boolean (b : Bool)
  | obj (fields : List (String × CtyVal))
  | otherVal

/-- Outcome of attr.Expr.Value(nil): evaluation diagnostics, a null value, or a value. -/
inductive AttrResult where
  | err
  | null
  | val (v : CtyVal)

/-- Outcome of block.Body.JustAttributes(). -/
inductive TFBody where
  | attrsErr
  | attrs (l : List (String × AttrResult))

/-- A top-level block returned by PartialContent with the resource/variable schema. -/
inductive TFBlock where
  | resource (labels : List String) (body : TFBody)
  | variableBlock (labels : List String) (body : TFBody)

/-- Outcome of parsing one .tf file. -/
inductive TFContent where
  | parseErr (diag : String)
  | partialErr (diag : String)
  | blocks (bs : List TFBlock)

/-- Secret keywords consulted by Scan in terraform.go (local slice secretKeywords). -/
def tfSecretKeywords : List String :=
  ["password", "secret", "token", "key", "pwd"]

/-- Required tags consulted by Scan in terraform.go. -/
def requiredTags : List String :=
  ["Environment", "Owner", "Project"]

/-- Deprecated Terraform resource map (terraform.go, deprecatedResources). -/
def deprecatedResourcesTF : List (String × String) :=
  [("aws_db_instance", "This resource is deprecated, use aws_rds_instance instead."),
   ("aws_elb", "This resource is deprecated, use aws_lb instead."),
   ("aws_elasticsearch_domain", "This resource is deprecated, use aws_opensearch_domain instead."),
   ("aws_iam_policy_attachment", "This resource is deprecated, use aws_iam_role_policy_attachment or aws_iam_user_policy_attachment instead."),
   ("aws_launch_configuration", "This resource is deprecated, use aws_autoscaling_group with launch template instead."),
   ("aws_acm_certificate_validation", "Deprecated in favor of aws_acm_certificate with validation blocks."),
   ("aws_cloudwatch_event_rule", "This resource is deprecated, use aws_cloudwatch_event_rule (newer schema) or aws_eventbridge_rule."),
   ("aws_route53_record", "Use caution, certain types or configurations may be deprecated; check latest provider docs."),
   ("aws_sns_topic_subscription", "Deprecated in favor of aws_sns_subscription."),
   ("aws_spot_instance_request", "This resource is deprecated, use aws_spot_fleet_request or aws_ec2_spot_fleet instead."),
   ("aws_elastic_beanstalk_environment", "Check if using legacy configs; aws_elastic_beanstalk_environment is still supported but monitor provider updates."),
   ("aws_iam_group_policy_attachment", "Deprecated, prefer aws_iam_group_policy.")]

/-- Deprecated-resource-type check on a resource block (terraform.go lines 148-154). -/
def deprecatedRes (p rt : String) : List Finding :=
  match lookupA deprecatedResourcesTF rt with
  | some msg => [⟨p, .warning, "Resource type '" ++ rt ++ "' is deprecated: " ++ msg⟩]
  | none => []

/-- Object fields of a cty value, when it is an object. -/
def CtyVal.objFields : CtyVal → Option (List (String × CtyVal))
  | .obj fs => some fs
  | _ => none

/-- Inner keyword loop of the resource-attribute secret check (terraform.go
lines 205-220): an unresolvable or null value makes the loop continue with
the next keyword (emitting nothing); a resolved value is handled once and
the loop breaks. -/
def secretKwLoop (p attrName lower : String) (r : AttrResult) : List String → List Finding
  | [] => []
  | kw :: rest =>
    if containsS lower kw then
      match r with
      | .err => secretKwLoop p attrName lower r rest
      | .null => secretKwLoop p attrName lower r rest
      | .val v =>
        match v with
        | .str s =>
          if s ≠ "" then
            [⟨p, .error, "Resource attribute '" ++ attrName ++ "' may contain hardcoded secret"⟩]
          else []
        | _ => []
    else secretKwLoop p attrName lower r rest

/-- Hardcoded-secret check over all attributes of a resource block (terraform.go lines 203-221). -/
def secretStep (p : String) (as : List (String × AttrResult)) : List Finding :=
  as.flatMap (fun nr => secretKwLoop p nr.1 (lowerS nr.1) nr.2 tfSecretKeywords)

/-- Tags check followed by the secret check (terraform.go lines 179-221).
An unresolvable or non-object tags value executes a continue statement in
the block loop, aborting the remaining checks for this block. -/
def tagsAndSecret (p : String) (as : List (String × AttrResult)) : List Finding :=
  match lookupA as "tags" with
  | some .err => []
  | some .null => []
  | some (.val v) =>
    match v.objFields with
    | none => []
    | some fields =>
      (requiredTags.flatMap (fun tag =>
        match lookupA fields tag with
        | some _ => []
        | none => [⟨p, .warning, "Resource missing required tag '" ++ tag ++ "'"⟩]))
      ++ secretStep p as
  | none =>
    ⟨p, .warning, "Resource missing 'tags' attribute entirely"⟩ :: secretStep p as

/-- Checks over a resource block body after JustAttributes succeeded
(terraform.go lines 162-221).  An unresolvable acl value on an
aws_s3_bucket resource executes a continue statement in the block loop,
aborting the remaining checks for this block. -/
def resourceBodyChecks (p rt : String) (as : List (String × AttrResult)) : List Finding :=
  if rt = "aws_s3_bucket" then
    match lookupA as "acl" with
    | some .err => []
    | some .null => tagsAndSecret p as
    | some (.val v) =>
      (match v with
       | .str s =>
         if s = "public-read" then
           [⟨p, .warning, "S3 bucket ACL is set to public-read (publicly readable)"⟩]
         else []
       | _ => []) ++ tagsAndSecret p as
    | none => tagsAndSecret p as
  else tagsAndSecret p as

/-- Keyword loop of the variable-default secret check (terraform.go lines
242-251): appending breaks the loop; a contained keyword with an empty
default keeps looping. -/
def varSecretLoop (p varName lower s : String) : List String → List Finding
  | [] => []
  | kw :: rest =>
    if containsS lower kw then
      if s = "" then varSecretLoop p varName lower s rest
      else [⟨p, .error, "Variable '" ++ varName ++ "' has a hardcoded default secret"⟩]
    else varSecretLoop p varName lower s rest

/-- Per-block checks of terraform.go (the body of the block loop, lines 137-255). -/
def checkBlock (p : String) : TFBlock → List Finding
  | .resource labels body =>
    match labels with
    | [rt, _] =>
      deprecatedRes p rt ++
      (match body with
       | .attrsErr => []
       | .attrs as => resourceBodyChecks p rt as)
    | _ => []
  | .variableBlock labels body =>
    match labels with
    | [varName] =>
      (match body with
       | .attrsErr => []
       | .attrs as =>
         match lookupA as "default" with
         | some (.val (.str s)) => varSecretLoop p varName (lowerS varName) s tfSecretKeywords
         | _ => [])
    | _ => []

/-- Findings terraform.Scan emits for one .tf file. -/
def tfScanFile (p : String) : TFContent → List Finding
  | .parseErr d => [⟨p, .error, "Failed to parse HCL file: " ++ d⟩]
  | .partialErr d => [⟨p, .error, "Failed to parse blocks: " ++ d⟩]
  | .blocks bs => bs.flatMap (checkBlock p)

/-- terraform.Scan: walk the tree, scanning .tf files. -/
def tfScan (evs : List (WEvent TFContent)) : List Finding × Option String :=
  walkScan (fun e => e = ".tf") tfScanFile evs

/-! ### Ansible dialect (the ansible package: Task, Play, Scan)

A Task is a YAML mapping decoded into a Go map; a Play has hosts, vars and
tasks.  hosts is none exactly when the decoded interface value is Go nil
(field absent or YAML null). -/

/-- Decoded YAML value (interface value produced by the YAML decoder). -/
inductive YVal where
  | s (v : String)
  | boolean (b : Bool)
  | i (n : Int)
  | null
  | listV (vs : List YVal)
  | mapV (kvs : List (String × YVal))

/-- An Ansible task: a decoded Go map, as an association list in iteration order. -/
abbrev Task := List (String × YVal)

/-- An Ansible play (hosts, vars, tasks). -/
structure Play where
  hosts : Option YVal
  vars : List (String × YVal)
  tasks : List Task

/-- Deprecated Ansible module map (the ansible package, deprecatedModules). -/
def deprecatedModules : List (String × String) :=
  [("raw", "The 'raw' module is deprecated; consider using 'command' or other modules."),
   ("command", "The 'command' module is sometimes discouraged in favor of more specific modules."),
   ("shell", "The 'shell' module can be risky and is discouraged for idempotency reasons."),
   ("ec2", "The 'ec2' module is deprecated; use 'amazon.aws.ec2_instance' from the Amazon AWS Collection instead."),
   ("docker", "The 'docker' module is deprecated; use 'community.docker.docker_container' instead."),
   ("git", "Older 'git' module versions might be deprecated; ensure you use the latest from 'community.general.git'."),
   ("service", "The 'service' module is discouraged in favor of OS-specific modules like 'systemd' or 'service_facts'."),
   ("yum", "The 'yum' module is discouraged for newer systems; use 'dnf' module on Fedora/RHEL 8+."),
   ("apt", "The 'apt' module should be replaced with 'apt_key' and 'apt_repository' for finer control where applicable."),
   ("setup", "Some facts gathered by 'setup' module may be deprecated; use 'ansible_facts' with targeted filters."),
   ("iptables", "Deprecated in favor of 'community.general.iptables' or 'ufw' modules depending on your firewall system."),
   ("firewalld", "Legacy 'firewalld' module replaced by 'community.general.firewalld'."),
   ("user", "Deprecated options in 'user' module replaced with improved parameters in latest versions.")]

/-- Secret keywords of the ansible package (var secretKeywords). -/
def ansSecretKeywords : List String :=
  ["password", "secret", "token", "key", "pwd"]

/-- containsSecretKeyword from the ansible package. -/
def containsSecretKeyword (s : String) : Bool :=
  ansSecretKeywords.any (fun kw => containsS (lowerS s) kw)

/-- Privilege-escalation check on one task (the become field). -/
def becomeCheck (p : String) (t : Task) : List Finding :=
  match lookupA t "become" with
  | none => [⟨p, .warning, "Task missing 'become' field (no privilege escalation specified)"⟩]
  | some (.boolean false) => [⟨p, .warning, "'become' is false in task (possible privilege issue)"⟩]
  | some _ => []

/-- Required task field name. -/
def nameCheck (p : String) (t : Task) : List Finding :=
  match lookupA t "name" with
  | some _ => []
  | none => [⟨p, .warning, "Task missing required field 'name'"⟩]

/-- Deprecated-module check over the keys of one task. -/
def depModCheck (p : String) (t : Task) : List Finding :=
  t.flatMap (fun kv =>
    if kv.1 ≠ "name" ∧ kv.1 ≠ "become" ∧ kv.1 ≠ "vars" then
      match lookupA deprecatedModules kv.1 with
      | some msg => [⟨p, .warning, "Use of deprecated module '" ++ kv.1 ++ "': " ++ msg⟩]
      | none => []
    else [])

/-- Hardcoded-secret check over the attributes of one task. -/
def ansSecretCheck (p : String) (t : Task) : List Finding :=
  t.flatMap (fun kv =>
    if containsSecretKeyword (lowerS kv.1) then
      match kv.2 with
      | .s v => if trimS v ≠ "" then
          [⟨p, .error, "Possible hardcoded secret in attribute '" ++ kv.1 ++ "'"⟩]
        else []
      | _ => []
    else [])

/-- Variable references a string value contributes to usedVars: when the
value contains both delimiters, each segment after an occurrence of the
opening braces contributes the text before the next closing braces inside
that segment (the whole segment if it has none), trimmed, if non-empty. -/
def extractUsed (v : String) : List String :=
  if containsS v "\x7b\x7b" && containsS v "\x7d\x7d" then
    ((splitS v "\x7b\x7b").drop 1).filterMap (fun part =>
      let nm := trimS ((splitS part "\x7d\x7d").headD "")
      if nm.length > 0 then some nm else none)
  else []

/-- Names recorded into usedVars while scanning one task. -/
def taskUsed (t : Task) : List String :=
  t.flatMap (fun kv =>
    match kv.2 with
    | .s v => extractUsed v
    | _ => [])

/-- Names recorded into usedVars over the whole file (membership is all that is consumed). -/
def usedList (plays : List Play) : List String :=
  plays.flatMap (fun pl => pl.tasks.flatMap taskUsed)

/-- Go map insertion of a key (value irrelevant): no duplicates. -/
def insertNew (l : List String) (k : String) : List String :=
  if k ∈ l then l else l ++ [k]

/-- Keys of definedVars after processing every play (insertion of all vars keys). -/
def definedVarsOf (plays : List Play) : List String :=
  plays.foldl (fun acc pl => pl.vars.foldl (fun a kv => insertNew a kv.1) acc) []

/-- Required hosts field check of one play. -/
def hostsCheck (p : String) (pl : Play) : List Finding :=
  match pl.hosts with
  | none => [⟨p, .warning, "Play missing required field 'hosts'"⟩]
  | some _ => []

/-- Findings of the checks over one task, in emission order. -/
def taskFindings (p : String) (t : Task) : List Finding :=
  becomeCheck p t ++ nameCheck p t ++ depModCheck p t ++ ansSecretCheck p t

/-- Findings emitted while processing one play. -/
def playFindings (p : String) (pl : Play) : List Finding :=
  hostsCheck p pl ++ pl.tasks.flatMap (taskFindings p)

/-- Unused-variable warnings emitted after processing the whole file. -/
def unusedWarnings (p : String) (plays : List Play) : List Finding :=
  ((definedVarsOf plays).filter (fun v => !(decide (v ∈ usedList plays)))).map
    (fun v => ⟨p, .warning, "Variable '" ++ v ++ "' defined but not used"⟩)

/-- Findings ansible Scan emits for one parsed playbook file. -/
def ansibleScanFile (p : String) (plays : List Play) : List Finding :=
  plays.flatMap (playFindings p) ++ unusedWarnings p plays

/-- Outcome of reading and YAML-decoding one playbook file. -/
inductive AContent where
  | readFail (e : String)
  | parseFail (e : String)
  | plays (ps : List Play)

/-- Per-file processing of ansible Scan, including read/parse failures. -/
def ansScanContent (p : String) : AContent → List Finding
  | .readFail e => [⟨p, .error, "Failed to read file: " ++ e⟩]
  | .parseFail e => [⟨p, .error, "YAML parse error: " ++ e⟩]
  | .plays ps => ansibleScanFile p ps

/-- ansible.Scan: walk the tree, scanning .yml and .yaml files. -/
def ansScan (evs : List (WEvent AContent)) : List Finding × Option String :=
  walkScan (fun e => e = ".yml" || e = ".yaml") ansScanContent evs

/-! ### Puppet dialect (internal/puppet/puppet.go) -/

/-- Captured outcome of invoking the external puppet-lint subprocess:
whether cmd.Run returned an error, and the captured streams. -/
structure LintExec where
  failed : Bool
  stdout : String
  stderr : String

/-- UTF-8 byte length of a rune list (the unit of the bufio buffer limit). -/
def utf8Len (cs : List Char) : Nat :=
  (cs.map Char.utf8Size).sum

/-- bufio.MaxScanTokenSize: the default scanner buffer limit in bytes. -/
def maxScanTokenSize : Nat := 65536

/-- Error text of bufio.ErrTooLong. -/
def tooLongMsg : String := "bufio.Scanner: token too long"

/-- dropCR of bufio.ScanLines: one trailing carriage return is stripped. -/
def dropCR (cs : List Char) : List Char :=
  if cs.getLast? = some '\r' then cs.dropLast else cs

/-- The line tokens bufio.Scanner+ScanLines yields when no line hits the
buffer limit: newline separated, the final newline producing no extra
empty line, carriage returns stripped.  Fuel bounds the number of lines,
so the input length is always enough. -/
def scanLinesList : Nat → List Char → List String
  | _, [] => []
  | 0, _ :: _ => []
  | fuel + 1, c :: cs =>
    match (c :: cs).dropWhile (fun x => x ≠ '\n') with
    | [] => [String.mk (dropCR ((c :: cs).takeWhile (fun x => x ≠ '\n')))]
    | _ :: tail =>
      String.mk (dropCR ((c :: cs).takeWhile (fun x => x ≠ '\n')))
        :: scanLinesList fuel tail

/-- Ideal line splitting of the captured stream (all lines within the limit). -/
def scanLines (s : String) : List String :=
  scanLinesList s.toList.length s.toList

/-- The bufio scan loop over an in-memory buffer: a line terminated by a
newline is yielded when the newline sits inside the first
maxScanTokenSize buffered bytes; an unterminated final segment is yielded
at EOF when it fits the buffer; otherwise the buffer fills without a
token and scanning stops with bufio.ErrTooLong, keeping the lines already
yielded. -/
def scanStep : Nat → List Char → List String × Option String
  | _, [] => ([], none)
  | 0, _ :: _ => ([], none)
  | fuel + 1, c :: cs =>
    match (c :: cs).dropWhile (fun x => x ≠ '\n') with
    | [] =>
      if utf8Len ((c :: cs).takeWhile (fun x => x ≠ '\n')) ≤ maxScanTokenSize then
        ([String.mk (dropCR ((c :: cs).takeWhile (fun x => x ≠ '\n')))], none)
      else ([], some tooLongMsg)
    | _ :: tail =>
      if utf8Len ((c :: cs).takeWhile (fun x => x ≠ '\n')) < maxScanTokenSize then
        (String.mk (dropCR ((c :: cs).takeWhile (fun x => x ≠ '\n')))
           :: (scanStep fuel tail).1,
         (scanStep fuel tail).2)
      else ([], some tooLongMsg)

/-- Lines and scanner error the bufio scanner produces for a captured stream. -/
def scanLinesErr (s : String) : List String × Option String :=
  scanStep s.toList.length s.toList

/-- runPuppetLint (puppet.go lines 148-175): a run error with empty captured
standard output returns the trimmed standard error as the error; otherwise
the stdout is scanned line by line, every yielded line becoming one
Warning finding verbatim, and a scanner error (a line over the token
limit, puppet.go lines 170-172) is returned wrapped in the
error-parsing-output text together with the findings yielded so far. -/
def runPuppetLint (filePath : String) (ex : LintExec) : List Finding × Option String :=
  if ex.failed = true ∧ ex.stdout = "" then ([], some (trimS ex.stderr))
  else
    ((scanLinesErr ex.stdout).1.map (fun l => ⟨filePath, .warning, l⟩),
     match (scanLinesErr ex.stdout).2 with
     | some e => some ("error parsing puppet-lint output: " ++ e)
     | none => none)

/-- Deprecated Puppet resource list (puppet.go, deprecatedResources). -/
def deprecatedResourcesPuppet : List String :=
  ["execpipe", "database", "concat::fragment", "filebucket", "nagios_service",
   "package", "resources", "vcsrepo", "apache::vhost", "mysql::db", "ssh_authorized_key"]

/-- Disallowed parameter list (puppet.go, disallowedParams). -/
def disallowedParams : List String :=
  ["force_destroy", "skip_final_snapshot", "public_ip", "allow_remote_access",
   "password", "secret_key", "access_key", "enable_http_access", "insecure_ssl",
   "admin_password"]

/-- Deprecated-resource substring check (puppet.go lines 90-98). -/
def depPuppetCheck (p content : String) : List Finding :=
  deprecatedResourcesPuppet.flatMap (fun dr =>
    if containsS content dr then [⟨p, .warning, "Deprecated resource type '" ++ dr ++ "' used"⟩]
    else [])

/-- Word or namespace character of the class-declaration pattern. -/
def isWordColon (c : Char) : Bool :=
  c.isAlphanum || c = '_' || c = ':'

/-- Match of the class-declaration pattern starting at a line start:
optional whitespace (the regexp whitespace class, which spans newlines),
the class keyword, at least one whitespace (again possibly spanning
newlines), then at least one word or colon character. -/
def classFrom (cs : List Char) : Bool :=
  match cs.dropWhile isSpaceGo with
  | 'c' :: 'l' :: 'a' :: 's' :: 's' :: rest =>
    (match rest with
     | c :: _ => isSpaceGo c && (match rest.dropWhile isSpaceGo with
        | w :: _ => isWordColon w
        | [] => false)
     | [] => false)
  | _ => false

/-- The multiline anchor of the class-declaration pattern: a match may
start at the beginning of the text or right after any newline. -/
def anyLineStart (f : List Char → Bool) : List Char → Bool
  | [] => false
  | '\n' :: rest => f rest || anyLineStart f rest
  | _ :: rest => anyLineStart f rest

/-- The class-declaration pattern matches somewhere in the text. -/
def classDeclMatches (content : String) : Bool :=
  classFrom content.toList || anyLineStart classFrom content.toList

/-- Missing class-declaration check (puppet.go lines 101-107). -/
def classDeclCheck (p content : String) : List Finding :=
  if classDeclMatches content then []
  else [⟨p, .warning, "No class declaration found in manifest"⟩]

/-- Match of the hardcoded-password pattern starting at this suffix:
the password keyword (case-insensitively), optional whitespace, an arrow,
optional whitespace, a quote, and a later quote on the same line. -/
def matchPwAt (cs : List Char) : Bool :=
  leads ['p','a','s','s','w','o','r','d'] (cs.map Char.toLower) &&
  (match (cs.drop 8).dropWhile isSpaceGo with
   | '=' :: '>' :: r2 =>
     (match r2.dropWhile isSpaceGo with
      | q :: r4 => (q = '"' || q = '\'') && ((r4.takeWhile (fun c => c ≠ '\n')).any (fun c => c = '"' || c = '\''))
      | [] => false)
   | _ => false)

/-- Some suffix of the list satisfies f. -/
def anySuffix (f : List Char → Bool) : List Char → Bool
  | [] => f []
  | c :: cs => f (c :: cs) || anySuffix f cs

/-- The hardcoded-password regular expression matches somewhere in the text. -/
def hasHardcodedPw (s : String) : Bool :=
  anySuffix matchPwAt s.toList

/-- Hardcoded-password check (puppet.go lines 110-116): only the first match is reported. -/
def hardcodedPwCheck (p content : String) : List Finding :=
  if hasHardcodedPw content then [⟨p, .error, "Possible hardcoded password detected"⟩]
  else []

/-- Trailing-whitespace test of one line (one-or-more whitespace at end of line). -/
def trailingWS (l : String) : Bool :=
  match l.toList.getLast? with
  | some c => isSpaceGo c
  | none => false

/-- Trailing-whitespace check (puppet.go lines 119-128), 1-based line numbers. -/
def trailingCheck (p content : String) : List Finding :=
  (splitS content "\n").enum.flatMap (fun ia =>
    if trailingWS ia.2 then
      [⟨p, .warning, "Trailing whitespace on line " ++ toString (ia.1 + 1)⟩]
    else [])

/-- Disallowed-parameter substring check (puppet.go lines 131-139). -/
def disallowedCheck (p content : String) : List Finding :=
  disallowedParams.flatMap (fun param =>
    if containsS content param then
      [⟨p, .warning, "Disallowed parameter '" ++ param ++ "' used"⟩]
    else [])

/-- Static text checks of puppet.go (steps 3 to 7), in emission order. -/
def staticChecks (p content : String) : List Finding :=
  depPuppetCheck p content
  ++ classDeclCheck p content
  ++ hardcodedPwCheck p content
  ++ trailingCheck p content
  ++ disallowedCheck p content

/-- Outcome of os.ReadFile on a manifest. -/
inductive PRead where
  | failRead (e : String)
  | content (s : String)

/-- Collaborator outcomes for one .pp file: linter invocation and file read. -/
structure PContent where
  lint : LintExec
  read : PRead

/-- Per-file processing of puppet.Scan: linter bridge first (an error
becomes one Error finding, output lines become Warnings), then the file is
read (a failure becomes one Error finding and skips the static checks),
then the five static checks. -/
def puppetScanFile (p : String) (c : PContent) : List Finding :=
  (match (runPuppetLint p c.lint).2 with
   | some e => [⟨p, .error, "puppet-lint error: " ++ e⟩]
   | none => []) ++ (runPuppetLint p c.lint).1 ++
  (match c.read with
   | .failRead e => [⟨p, .error, "failed to read file: " ++ e⟩]
   | .content s => staticChecks p s)

/-- puppet.Scan: walk the tree, scanning .pp files. -/
def puppetScan (evs : List (WEvent PContent)) : List Finding × Option String :=
  walkScan (fun e => e = ".pp") puppetScanFile evs

/-! ### Statement vocabulary -/

/-- Discriminator for a become value decoded as the boolean false. -/
def isBecomeFalse : Option YVal → Bool
  | some (.boolean false) => true
  | _ => false

/-- Modelled from the spec: the used-variable set as claim C8 words it
(identifiers appearing between opening and closing double-brace
delimiters).  For each segment after an opening delimiter, a name is
recorded only when a closing delimiter follows inside that segment.  This
definition follows the claim wording and exists only to be compared
against the extraction the code performs (extractUsed). -/
def specExtractUsed (v : String) : List String :=
  ((splitS v "\x7b\x7b").drop 1).filterMap (fun part =>
    if containsS part "\x7d\x7d" then
      let nm := trimS ((splitS part "\x7d\x7d").headD "")
      if nm.length > 0 then some nm else none
    else none)

/-- Modelled from the spec: the whole-file used set under the claim-C8 reading. -/
def specUsedList (plays : List Play) : List String :=
  plays.flatMap (fun pl => pl.tasks.flatMap (fun t => t.flatMap (fun kv =>
    match kv.2 with
    | .s v => specExtractUsed v
    | _ => [])))

/-! ### Helper lemmas -/

theorem finding_ne_of_message {p q : String} {s₁ s₂ : Severity} {m₁ m₂ : String}
    (h : m₁ ≠ m₂) : (⟨p, s₁, m₁⟩ : Finding) ≠ ⟨q, s₂, m₂⟩ :=
  fun he => h (congrArg Finding.message he)

theorem finding_ne_of_severity {p q : String} {s₁ s₂ : Severity} {m₁ m₂ : String}
    (h : s₁ ≠ s₂) : (⟨p, s₁, m₁⟩ : Finding) ≠ ⟨q, s₂, m₂⟩ :=
  fun he => h (congrArg Finding.severity he)

theorem count_eq_zero_of_forall_ne {l : List Finding} {x : Finding}
    (h : ∀ f ∈ l, f ≠ x) : l.count x = 0 :=
  List.count_eq_zero.mpr (fun hx => (h x hx) rfl)

theorem count_single_ne {x y : Finding} (h : x ≠ y) : [x].count y = 0 :=
  List.count_eq_zero.mpr (by simp; exact fun he => h he.symm)

/-- Head character of a string starting with a known literal, after appending. -/
theorem msgHead {pre : String} {c : Char} (h : pre.data.head? = some c) (k : String) :
    (pre ++ k).data.head? = some c := by
  cases hd : pre.data with
  | nil => rw [hd] at h; cases h
  | cons a as => rw [hd] at h; cases h; simp [String.data_append, hd]

theorem finding_ne_of_head {p q : String} {s₁ s₂ : Severity} {m₁ m₂ : String}
    (h : m₁.data.head? ≠ m₂.data.head?) : (⟨p, s₁, m₁⟩ : Finding) ≠ ⟨q, s₂, m₂⟩ :=
  finding_ne_of_message (fun he => h (he ▸ rfl))

/-- The err-valued attribute keyword loop emits nothing for any keyword list. -/
theorem secretKwLoop_err_nil (p n lower : String) :
    ∀ kws, secretKwLoop p n lower AttrResult.err kws = [] := by
  intro kws
  induction kws with
  | nil => rfl
  | cons kw rest ih => by_cases h : containsS lower kw <;> simp [secretKwLoop, h, ih]

/-- Association lookup ignores an entry whose key differs. -/
theorem lookupA_skip {α : Type} {n k : String} (h : n ≠ k) (v : α) :
    ∀ xs ys, lookupA (xs ++ (n, v) :: ys) k = lookupA (xs ++ ys) k := by
  intro xs ys
  induction xs with
  | nil => simp [lookupA, h]
  | cons x rest ih => by_cases hx : x.1 = k <;> simp [lookupA, hx, ih]

theorem secretStep_skip_err (p n : String) (xs ys : List (String × AttrResult)) :
    secretStep p (xs ++ (n, AttrResult.err) :: ys) = secretStep p (xs ++ ys) := by
  simp [secretStep, List.flatMap_append, secretKwLoop_err_nil]

theorem tagsAndSecret_skip_err {n : String} (p : String) (hn : n ≠ "tags")
    (xs ys : List (String × AttrResult)) :
    tagsAndSecret p (xs ++ (n, AttrResult.err) :: ys) = tagsAndSecret p (xs ++ ys) := by
  unfold tagsAndSecret
  rw [lookupA_skip hn _ xs ys, secretStep_skip_err]

/-- Keyword loop membership: a contained keyword together with a non-empty
string value forces the Error finding. -/
theorem secretKwLoop_mem {p n lower s : String} (hs : s ≠ "") :
    ∀ kws, (∃ kw ∈ kws, containsS lower kw = true) →
    (⟨p, .error, "Resource attribute '" ++ n ++ "' may contain hardcoded secret"⟩ : Finding)
      ∈ secretKwLoop p n lower (AttrResult.val (CtyVal.str s)) kws := by
  intro kws
  induction kws with
  | nil => rintro ⟨kw, hkw, _⟩; cases hkw
  | cons kw rest ih =>
    rintro ⟨kw', hkw', hc⟩
    by_cases h : containsS lower kw
    · simp [secretKwLoop, h, hs]
    · rcases List.mem_cons.mp hkw' with rfl | hmem
      · exact absurd hc h
      · simpa [secretKwLoop, h] using ih ⟨kw', hmem, hc⟩

/-! ### Concrete inputs used by counterexamples and witnesses -/

/-- Parsed representation of tests/sample-terraform-files/failure1.tf. -/
def failure1tf : TFContent :=
  .blocks [.resource ["aws_s3_bucket", "logs_bucket"]
    (.attrs [("bucket", .val (.str "logs-bucket")),
             ("acl", .val (.str "public-read")),
             ("tags", .val (.obj [("Environment", .str "prod")]))])]

/-- A bucket resource whose only secret-looking attribute name contains the
word access (and none of the five keywords the code consults). -/
def accessFile : TFContent :=
  .blocks [.resource ["aws_s3_bucket", "b"]
    (.attrs [("acl", .val (.str "private")),
             ("tags", .val (.obj [("Environment", .str "p"), ("Owner", .str "o"),
                                  ("Project", .str "j")])),
             ("access", .val (.str "0.0.0.0/0"))])]

/-- A bucket resource with an unresolvable acl value, no tags attribute and
a hardcoded password attribute. -/
def c4file : TFContent :=
  .blocks [.resource ["aws_s3_bucket", "b"]
    (.attrs [("acl", .err), ("password", .val (.str "hunter2"))])]

/-! ### Claim C6 -/

/-- C6: a declarative file with a single aws_s3_bucket resource, acl
public-read and a tags map holding only Environment yields exactly the
three Warning findings (public-read exposure, missing Owner, missing
Project) and no Error finding. -/
theorem c6_bucket_three_warnings :
    tfScanFile "failure1.tf" failure1tf =
      [⟨"failure1.tf", .warning, "S3 bucket ACL is set to public-read (publicly readable)"⟩,
       ⟨"failure1.tf", .warning, "Resource missing required tag 'Owner'"⟩,
       ⟨"failure1.tf", .warning, "Resource missing required tag 'Project'"⟩]
    ∧ (tfScanFile "failure1.tf" failure1tf).all (fun f => f.severity == Severity.warning) = true := by
  constructor <;> decide

/-! ### Claim C3 -/

/-- C3 counterexample: the keyword catalog the checks consult is not the
six-element list the claim states (access is absent), and an attribute
named access with a non-empty string value yields no finding at all, where
the claim requires an Error finding. -/
theorem c3_counterexample :
    tfSecretKeywords ≠ ["password", "secret", "token", "key", "pwd", "access"]
    ∧ containsS (lowerS "access") "access" = true
    ∧ tfScanFile "main.tf" accessFile = [] := by
  refine ⟨by decide, by decide, by decide⟩

/-- C3 (amended): the keyword catalog consulted by both hardcoded-secret
checks is exactly the five keywords password, secret, token, key, pwd; and
the resource-attribute secret check emits an Error finding for every
attribute whose lowered name contains one of them and whose
statically-resolved value is a non-empty string. -/
theorem c3_secret_keyword_catalog :
    tfSecretKeywords = ["password", "secret", "token", "key", "pwd"]
    ∧ ansSecretKeywords = ["password", "secret", "token", "key", "pwd"]
    ∧ ∀ (p n s : String) (as : List (String × AttrResult)),
        (n, AttrResult.val (CtyVal.str s)) ∈ as → s ≠ "" →
        (∃ kw ∈ tfSecretKeywords, containsS (lowerS n) kw = true) →
        (⟨p, .error, "Resource attribute '" ++ n ++ "' may contain hardcoded secret"⟩ : Finding)
          ∈ secretStep p as := by
  refine ⟨rfl, rfl, ?_⟩
  intro p n s as hmem hs hkw
  unfold secretStep
  exact List.mem_flatMap.mpr ⟨(n, AttrResult.val (CtyVal.str s)), hmem, secretKwLoop_mem hs _ hkw⟩

/-- C3 witness: the amended theorem applied to a concrete block. -/
theorem c3_witness :
    (⟨"f.tf", .error, "Resource attribute 'db_password' may contain hardcoded secret"⟩ : Finding)
      ∈ secretStep "f.tf" [("db_password", AttrResult.val (CtyVal.str "x"))] :=
  c3_secret_keyword_catalog.2.2 "f.tf" "db_password" "x" _
    (by simp) (by decide) ⟨"password", by decide, by decide⟩

/-! ### Claim C4 -/

/-- C4 counterexample: a bucket block whose acl value does not statically
resolve and that also misses tags and hardcodes a password produces no
finding at all: the unresolvable acl aborts the required-tags check and
the hardcoded-secret check for the block, where the claim requires both to
run. -/
theorem c4_counterexample :
    tfScanFile "main.tf" c4file = []
    ∧ (⟨"main.tf", .warning, "Resource missing 'tags' attribute entirely"⟩ : Finding)
        ∉ tfScanFile "main.tf" c4file
    ∧ (⟨"main.tf", .error, "Resource attribute 'password' may contain hardcoded secret"⟩ : Finding)
        ∉ tfScanFile "main.tf" c4file := by
  refine ⟨by decide, by decide, by decide⟩

/-- C4 (amended): an attribute whose value cannot be statically resolved is
skipped silently by the hardcoded-secret check, and, when it is neither
the acl nor the tags attribute, the block's other checks are unaffected;
however an unresolvable acl value on a storage-bucket resource aborts all
remaining checks for that block. -/
theorem c4_unresolvable_attribute :
    (∀ (p n : String) (xs ys : List (String × AttrResult)),
       secretStep p (xs ++ (n, AttrResult.err) :: ys) = secretStep p (xs ++ ys))
    ∧ (∀ (p : String) (as : List (String × AttrResult)),
        lookupA as "acl" = some AttrResult.err →
        resourceBodyChecks p "aws_s3_bucket" as = [])
    ∧ (∀ (p rt n : String) (xs ys : List (String × AttrResult)),
        n ≠ "acl" → n ≠ "tags" →
        resourceBodyChecks p rt (xs ++ (n, AttrResult.err) :: ys)
          = resourceBodyChecks p rt (xs ++ ys)) := by
  refine ⟨secretStep_skip_err, ?_, ?_⟩
  · intro p as hacl
    simp [resourceBodyChecks, hacl]
  · intro p rt n xs ys hacl htags
    unfold resourceBodyChecks
    rw [lookupA_skip hacl _ xs ys]
    by_cases hrt : rt = "aws_s3_bucket"
    · simp only [hrt, if_pos rfl]
      cases h : lookupA (xs ++ ys) "acl" with
      | none => exact tagsAndSecret_skip_err p htags xs ys
      | some r =>
        cases r with
        | err => rfl
        | null => exact tagsAndSecret_skip_err p htags xs ys
        | val v => rw [tagsAndSecret_skip_err p htags xs ys]
    · simp only [hrt, if_neg hrt]
      exact tagsAndSecret_skip_err p htags xs ys

/-- C4 witness: the amended theorem applied to a concrete block body. -/
theorem c4_witness :
    resourceBodyChecks "f.tf" "aws_s3_bucket" [("acl", AttrResult.err)] = [] :=
  c4_unresolvable_attribute.2.1 "f.tf" [("acl", AttrResult.err)] rfl

/-! ### Claim C5 -/

/-- C5: per task, a missing become key yields exactly one Warning (no
privilege escalation specified); become false yields exactly one Warning
(possible privilege issue); become true or a non-boolean become yields
zero privilege-escalation findings. -/
theorem c5_become_privilege (p : String) (t : Task) :
    ((taskFindings p t).count
        ⟨p, .warning, "Task missing 'become' field (no privilege escalation specified)"⟩
      = if (lookupA t "become").isNone then 1 else 0)
    ∧ ((taskFindings p t).count
        ⟨p, .warning, "'become' is false in task (possible privilege issue)"⟩
      = if isBecomeFalse (lookupA t "become") then 1 else 0) := by
  have hdep : ∀ f ∈ depModCheck p t, f.message.data.head? = some 'U' := by
    intro f hf
    simp only [depModCheck, List.mem_flatMap] at hf
    obtain ⟨kv, _, hin⟩ := hf
    split at hin
    · split at hin
      · simp only [List.mem_singleton] at hin
        subst hin
        exact msgHead (msgHead (msgHead (show ("Use of deprecated module '" : String).data.head?
          = some 'U' by decide) kv.1) "': ") _
      · cases hin
    · cases hin
  have hsec : ∀ f ∈ ansSecretCheck p t, f.severity = Severity.error := by
    intro f hf
    simp only [ansSecretCheck, List.mem_flatMap] at hf
    obtain ⟨kv, _, hin⟩ := hf
    split at hin
    · split at hin
      · split at hin
        · simp only [List.mem_singleton] at hin; subst hin; rfl
        · cases hin
      · cases hin
    · cases hin
  have hnm : ∀ f ∈ nameCheck p t, f.message = "Task missing required field 'name'" := by
    intro f hf
    unfold nameCheck at hf
    split at hf
    · cases hf
    · simp only [List.mem_singleton] at hf; subst hf; rfl
  have hname0 : ∀ (q : String) (sv : Severity) (m : String),
      m ≠ "Task missing required field 'name'" → (nameCheck p t).count ⟨q, sv, m⟩ = 0 := by
    intro q sv m hx
    refine count_eq_zero_of_forall_ne (fun f hf he => ?_)
    have hm := hnm f hf
    rw [he] at hm
    exact hx hm
  have hdep0 : ∀ (q : String) (sv : Severity) (m : String),
      m.data.head? ≠ some 'U' → (depModCheck p t).count ⟨q, sv, m⟩ = 0 := by
    intro q sv m hx
    refine count_eq_zero_of_forall_ne (fun f hf he => ?_)
    have hm := hdep f hf
    rw [he] at hm
    exact hx hm
  have hsec0 : ∀ (q m : String), (ansSecretCheck p t).count ⟨q, .warning, m⟩ = 0 := by
    intro q m
    refine count_eq_zero_of_forall_ne (fun f hf he => ?_)
    have hm := hsec f hf
    rw [he] at hm
    exact Severity.noConfusion hm
  have e1 := hname0 p .warning "Task missing 'become' field (no privilege escalation specified)" (by decide)
  have e2 := hname0 p .warning "'become' is false in task (possible privilege issue)" (by decide)
  have e3 := hdep0 p .warning "Task missing 'become' field (no privilege escalation specified)" (by decide)
  have e4 := hdep0 p .warning "'become' is false in task (possible privilege issue)" (by decide)
  have e5 := hsec0 p "Task missing 'become' field (no privilege escalation specified)"
  have e6 := hsec0 p "'become' is false in task (possible privilege issue)"
  constructor
  · simp only [taskFindings, List.count_append, e1, e3, e5, Nat.add_zero]
    unfold becomeCheck
    cases hb : lookupA t "become" with
    | none => simp
    | some v =>
      cases v with
      | boolean b =>
        cases b with
        | false =>
          simp only [Option.isNone_some, Bool.false_eq_true, if_false]
          exact count_single_ne (finding_ne_of_message (by decide))
        | true => simp
      | s v => simp
      | i n => simp
      | null => simp
      | listV vs => simp
      | mapV kvs => simp
  · simp only [taskFindings, List.count_append, e2, e4, e6, Nat.add_zero]
    unfold becomeCheck
    cases hb : lookupA t "become" with
    | none =>
      simp only [isBecomeFalse, if_false]
      exact count_single_ne (finding_ne_of_message (by decide))
    | some v =>
      cases v with
      | boolean b =>
        cases b with
        | false => simp [isBecomeFalse]
        | true => simp [isBecomeFalse]
      | s v => simp [isBecomeFalse]
      | i n => simp [isBecomeFalse]
      | null => simp [isBecomeFalse]
      | listV vs => simp [isBecomeFalse]
      | mapV kvs => simp [isBecomeFalse]

/-! ### Claim C1 -/

theorem walkScan_err_iff {γ : Type} (extOk : String → Bool) (sf : String → γ → List Finding) :
    ∀ evs : List (WEvent γ),
    (walkScan extOk sf evs).2 ≠ none ↔ ∃ e, (WEvent.errE e) ∈ evs := by
  intro evs
  induction evs with
  | nil => simp [walkScan]
  | cons ev rest ih =>
    cases ev with
    | errE e =>
      simp [walkScan]
    | fileE p d c =>
      have h2 : (walkScan extOk sf (WEvent.fileE p d c :: rest)).2
          = (walkScan extOk sf rest).2 := by
        by_cases hd : d <;> by_cases he : extOk (extOf p) = true <;> simp [walkScan, hd, he]
      rw [h2, ih]
      constructor
      · rintro ⟨e, he⟩
        exact ⟨e, List.mem_cons_of_mem _ he⟩
      · rintro ⟨e, he⟩
        rcases List.mem_cons.mp he with h | h
        · exact WEvent.noConfusion h
        · exact ⟨e, h⟩

/-- C1: the error a Scan returns is non-nil exactly when the traversal
yielded an error event; a file that fails to parse or to read instead
contributes a single Error finding, its remaining checks are skipped, and
the walk continues with the remaining files. -/
theorem c1_fatal_only_traversal :
    (∀ evs : List (WEvent TFContent),
       (tfScan evs).2 ≠ none ↔ ∃ e, (WEvent.errE e) ∈ evs)
    ∧ (∀ evs : List (WEvent AContent),
       (ansScan evs).2 ≠ none ↔ ∃ e, (WEvent.errE e) ∈ evs)
    ∧ (∀ (p d : String) (rest : List (WEvent TFContent)), extOf p = ".tf" →
        tfScan (.fileE p false (.parseErr d) :: rest)
          = (⟨p, .error, "Failed to parse HCL file: " ++ d⟩ :: (tfScan rest).1, (tfScan rest).2))
    ∧ (∀ (p e : String) (rest : List (WEvent AContent)), extOf p = ".yml" →
        ansScan (.fileE p false (.readFail e) :: rest)
          = (⟨p, .error, "Failed to read file: " ++ e⟩ :: (ansScan rest).1, (ansScan rest).2))
    ∧ (∀ (p e : String) (rest : List (WEvent AContent)), extOf p = ".yml" →
        ansScan (.fileE p false (.parseFail e) :: rest)
          = (⟨p, .error, "YAML parse error: " ++ e⟩ :: (ansScan rest).1, (ansScan rest).2)) := by
  refine ⟨walkScan_err_iff _ _, walkScan_err_iff _ _, ?_, ?_, ?_⟩
  · intro p d rest h
    simp [tfScan, walkScan, h, tfScanFile]
  · intro p e rest h
    simp [ansScan, walkScan, h, ansScanContent]
  · intro p e rest h
    simp [ansScan, walkScan, h, ansScanContent]

/-- C1 witness: a parse failure yields one Error finding and a nil error. -/
theorem c1_witness :
    tfScan [.fileE "a.tf" false (.parseErr "boom")]
      = ([⟨"a.tf", .error, "Failed to parse HCL file: boom"⟩], none) := by
  have h := c1_fatal_only_traversal.2.2.1 "a.tf" "boom" [] (by decide)
  simpa [tfScan, walkScan] using h

/-! ### Claim C9 -/

theorem walkScan_all_skipped {γ : Type} (extOk : String → Bool) (sf : String → γ → List Finding) :
    ∀ evs : List (WEvent γ),
    (∀ ev ∈ evs, ∃ p d c, ev = WEvent.fileE p d c ∧ (d = true ∨ extOk (extOf p) = false)) →
    walkScan extOk sf evs = ([], none) := by
  intro evs
  induction evs with
  | nil => intro _; rfl
  | cons ev rest ih =>
    intro h
    obtain ⟨p, d, c, rfl, hcase⟩ := h ev (List.mem_cons_self ev rest)
    have hrest := ih (fun e he => h e (List.mem_cons_of_mem _ he))
    rcases hcase with hd | he
    · simp [walkScan, hd, hrest]
    · by_cases hd : d <;> simp [walkScan, hd, he, hrest]

/-- C9: when traversal succeeds and the tree holds no regular file with the
dialect's expected extension, each Scan returns an empty finding list and
a nil error (directories and files with other extensions contribute
nothing), for all three dialects. -/
theorem c9_empty_when_no_matching_file :
    (∀ evs : List (WEvent TFContent),
       (∀ ev ∈ evs, ∃ p d c, ev = WEvent.fileE p d c ∧ (d = true ∨ (extOf p = ".tf") = False)) →
       tfScan evs = ([], none))
    ∧ (∀ evs : List (WEvent AContent),
       (∀ ev ∈ evs, ∃ p d c, ev = WEvent.fileE p d c
          ∧ (d = true ∨ ((extOf p = ".yml") = False ∧ (extOf p = ".yaml") = False))) →
       ansScan evs = ([], none))
    ∧ (∀ evs : List (WEvent PContent),
       (∀ ev ∈ evs, ∃ p d c, ev = WEvent.fileE p d c ∧ (d = true ∨ (extOf p = ".pp") = False)) →
       puppetScan evs = ([], none)) := by
  refine ⟨?_, ?_, ?_⟩
  · intro evs h
    refine walkScan_all_skipped _ _ evs (fun ev he => ?_)
    obtain ⟨p, d, c, rfl, hc⟩ := h ev he
    refine ⟨p, d, c, rfl, ?_⟩
    rcases hc with hd | hext
    · exact Or.inl hd
    · refine Or.inr ?_
      simp [hext]
  · intro evs h
    refine walkScan_all_skipped _ _ evs (fun ev he => ?_)
    obtain ⟨p, d, c, rfl, hc⟩ := h ev he
    refine ⟨p, d, c, rfl, ?_⟩
    rcases hc with hd | hext
    · exact Or.inl hd
    · refine Or.inr ?_
      simp [hext.1, hext.2]
  · intro evs h
    refine walkScan_all_skipped _ _ evs (fun ev he => ?_)
    obtain ⟨p, d, c, rfl, hc⟩ := h ev he
    refine ⟨p, d, c, rfl, ?_⟩
    rcases hc with hd | hext
    · exact Or.inl hd
    · refine Or.inr ?_
      simp [hext]

/-- C9 witness: a tree with one directory and one .txt file yields the
empty result in every dialect. -/
theorem c9_witness :
    tfScan [.fileE "sub" true (.blocks []), .fileE "notes.txt" false (.blocks [])] = ([], none)
    ∧ ansScan [.fileE "notes.txt" false (.plays [])] = ([], none)
    ∧ puppetScan [.fileE "notes.txt" false ⟨⟨false, "", ""⟩, .content ""⟩] = ([], none) := by
  refine ⟨?_, ?_, ?_⟩
  · refine c9_empty_when_no_matching_file.1 _ (fun ev he => ?_)
    rcases List.mem_cons.mp he with rfl | he2
    · exact ⟨"sub", true, .blocks [], rfl, Or.inl rfl⟩
    · rcases List.mem_cons.mp he2 with rfl | he3
      · exact ⟨"notes.txt", false, .blocks [], rfl, Or.inr (by simp; decide)⟩
      · cases he3
  · refine c9_empty_when_no_matching_file.2.1 _ (fun ev he => ?_)
    rcases List.mem_cons.mp he with rfl | he2
    · exact ⟨"notes.txt", false, .plays [], rfl, Or.inr (by constructor <;> (simp; decide))⟩
    · cases he2
  · refine c9_empty_when_no_matching_file.2.2 _ (fun ev he => ?_)
    rcases List.mem_cons.mp he with rfl | he2
    · exact ⟨"notes.txt", false, ⟨⟨false, "", ""⟩, .content ""⟩, rfl, Or.inr (by simp; decide)⟩
    · cases he2

/-! ### Claim C7 -/

/-- The first occurrence of the newline separator, characterized by
takeWhile and dropWhile. -/
theorem breakFirst_newline : ∀ l : List Char,
    breakFirst ['\n'] l
      = (match l.dropWhile (fun x => x ≠ '\n') with
         | [] => none
         | _ :: tail => some (l.takeWhile (fun x => x ≠ '\n'), tail)) := by
  intro l
  induction l with
  | nil => rfl
  | cons c cs ih =>
    by_cases hc : c = '\n'
    · subst hc
      have h1 : ('\n' :: cs).dropWhile (fun x => x ≠ '\n') = '\n' :: cs :=
        List.dropWhile_cons_of_neg (by simp)
      have h2 : ('\n' :: cs).takeWhile (fun x => x ≠ '\n') = [] :=
        List.takeWhile_cons_of_neg (by simp)
      rw [h1]
      show breakFirst ['\n'] ('\n' :: cs) = some (('\n' :: cs).takeWhile (fun x => x ≠ '\n'), cs)
      rw [h2]
      simp [breakFirst, leads]
    · have h1 : (c :: cs).dropWhile (fun x => x ≠ '\n') = cs.dropWhile (fun x => x ≠ '\n') :=
        List.dropWhile_cons_of_pos (by simpa using hc)
      have h2 : (c :: cs).takeWhile (fun x => x ≠ '\n')
          = c :: cs.takeWhile (fun x => x ≠ '\n') :=
        List.takeWhile_cons_of_pos (by simpa using hc)
      rw [h1, h2]
      have hlead : leads ['\n'] (c :: cs) = false := by
        simp [leads, Ne.symm hc]
      simp only [breakFirst, hlead, Bool.false_eq_true, if_false, ih]
      cases cs.dropWhile (fun x => x ≠ '\n') with
      | nil => rfl
      | cons r tail => rfl

/-- A found newline separator strictly shrinks the remainder. -/
theorem dropWhile_tail_lt {rem tail : List Char} {r : Char}
    (h : rem.dropWhile (fun x => x ≠ '\n') = r :: tail) : tail.length < rem.length := by
  have hle := (List.dropWhile_sublist (l := rem) (fun x => x ≠ '\n')).length_le
  rw [h] at hle
  simp only [List.length_cons] at hle
  omega

/-- splitFuel at the newline separator ignores extra fuel. -/
theorem splitFuel_newline_stable : ∀ (f₁ : Nat), ∀ {l : List Char} (f₂ : Nat),
    l.length ≤ f₁ → l.length ≤ f₂ →
    splitFuel ['\n'] f₁ l = splitFuel ['\n'] f₂ l := by
  intro f₁
  induction f₁ with
  | zero =>
    intro l f₂ h₁ _
    have hl : l = [] := List.length_eq_zero.mp (Nat.le_zero.mp h₁)
    subst hl
    cases f₂ with
    | zero => rfl
    | succ n => rfl
  | succ n ih =>
    intro l f₂ h₁ h₂
    cases hdrop : l.dropWhile (fun x => x ≠ '\n') with
    | nil =>
      have hbf : breakFirst ['\n'] l = none := by
        rw [breakFirst_newline, hdrop]
      cases f₂ with
      | zero =>
        have hl : l = [] := List.length_eq_zero.mp (Nat.le_zero.mp h₂)
        subst hl
        rfl
      | succ m => simp [splitFuel, hbf]
    | cons r tl =>
      have hbf : breakFirst ['\n'] l = some (l.takeWhile (fun x => x ≠ '\n'), tl) := by
        rw [breakFirst_newline, hdrop]
      have hlt := dropWhile_tail_lt hdrop
      cases f₂ with
      | zero =>
        have h0 : l.length = 0 := Nat.le_zero.mp h₂
        omega
      | succ m =>
        simp only [splitFuel, hbf]
        rw [ih m (by omega) (by omega)]

/-- A text without a newline splits into itself alone. -/
theorem splitL_no_newline {rem : List Char}
    (h : rem.dropWhile (fun x => x ≠ '\n') = []) : splitL ['\n'] rem = [rem] := by
  have hbf : breakFirst ['\n'] rem = none := by
    rw [breakFirst_newline, h]
  unfold splitL
  cases hl : rem.length with
  | zero => rfl
  | succ n => simp [splitFuel, hbf]

/-- A text with a newline splits into its first line and the split of the rest. -/
theorem splitL_cons_newline {rem tail : List Char} {r : Char}
    (h : rem.dropWhile (fun x => x ≠ '\n') = r :: tail) :
    splitL ['\n'] rem = rem.takeWhile (fun x => x ≠ '\n') :: splitL ['\n'] tail := by
  have hbf : breakFirst ['\n'] rem = some (rem.takeWhile (fun x => x ≠ '\n'), tail) := by
    rw [breakFirst_newline, h]
  have hlt := dropWhile_tail_lt h
  unfold splitL
  cases hl : rem.length with
  | zero =>
    have hn : rem = [] := List.length_eq_zero.mp hl
    subst hn
    cases h
  | succ n =>
    simp only [splitFuel, hbf]
    rw [splitFuel_newline_stable n tail.length (by omega) (Nat.le_refl _)]

/-- When every newline-separated segment fits the buffer limit, the bufio
scan yields exactly the ideal lines and no error. -/
theorem scanStep_eq_of_fit : ∀ (fuel : Nat) (rem : List Char), rem.length ≤ fuel →
    (∀ l ∈ splitL ['\n'] rem, utf8Len l < maxScanTokenSize) →
    scanStep fuel rem = (scanLinesList fuel rem, none) := by
  intro fuel
  induction fuel with
  | zero =>
    intro rem h _
    have hl : rem = [] := List.length_eq_zero.mp (Nat.le_zero.mp h)
    subst hl
    rfl
  | succ n ih =>
    intro rem hlen hfit
    cases rem with
    | nil => rfl
    | cons c cs =>
      cases hdrop : (c :: cs).dropWhile (fun x => x ≠ '\n') with
      | nil =>
        have hpre : (c :: cs).takeWhile (fun x => x ≠ '\n') = c :: cs := by
          have h2 := List.takeWhile_append_dropWhile (fun x => decide (x ≠ '\n')) (c :: cs)
          rw [hdrop, List.append_nil] at h2
          exact h2
        have hm : utf8Len ((c :: cs).takeWhile (fun x => x ≠ '\n')) < maxScanTokenSize := by
          rw [hpre]
          exact hfit _ (by rw [splitL_no_newline hdrop]; exact List.mem_singleton_self _)
        simp only [scanStep, scanLinesList, hdrop, if_pos (Nat.le_of_lt hm)]
      | cons r tl =>
        have hm : utf8Len ((c :: cs).takeWhile (fun x => x ≠ '\n')) < maxScanTokenSize :=
          hfit _ (by rw [splitL_cons_newline hdrop]; exact List.mem_cons_self _ _)
        have htl : tl.length ≤ n := by
          have hlt := dropWhile_tail_lt hdrop
          simp only [List.length_cons] at hlt hlen
          omega
        have hfit2 : ∀ l ∈ splitL ['\n'] tl, utf8Len l < maxScanTokenSize := by
          intro l hl
          exact hfit l (by rw [splitL_cons_newline hdrop]; exact List.mem_cons_of_mem _ hl)
        simp only [scanStep, scanLinesList, hdrop, if_pos hm, ih tl htl hfit2]

/-- Per-character shape of the replicated counterexample line. -/
theorem repl_a_shape (m : Nat) :
    (List.replicate m 'a').takeWhile (fun x => x ≠ '\n') = List.replicate m 'a'
    ∧ (List.replicate m 'a').dropWhile (fun x => x ≠ '\n') = ([] : List Char) := by
  induction m with
  | zero => exact ⟨rfl, rfl⟩
  | succ k ih =>
    constructor
    · rw [List.replicate_succ]
      rw [show ('a' :: List.replicate k 'a').takeWhile (fun x => x ≠ '\n')
            = 'a' :: (List.replicate k 'a').takeWhile (fun x => x ≠ '\n') from
          List.takeWhile_cons_of_pos (by decide)]
      rw [ih.1]
    · rw [List.replicate_succ]
      rw [show ('a' :: List.replicate k 'a').dropWhile (fun x => x ≠ '\n')
            = (List.replicate k 'a').dropWhile (fun x => x ≠ '\n') from
          List.dropWhile_cons_of_pos (by decide)]
      rw [ih.2]

/-- Byte length of the replicated counterexample line. -/
theorem utf8Len_repl_a (m : Nat) : utf8Len (List.replicate m 'a') = m := by
  have h1 : Char.utf8Size 'a' = 1 := by decide
  simp [utf8Len, List.map_replicate, h1, List.sum_replicate, smul_eq_mul]

/-- A single unterminated line over the buffer limit stops the scanner
with the token-too-long error and yields no line. -/
theorem scanStep_too_long (f m : Nat) (h : maxScanTokenSize < m + 1) :
    scanStep (f + 1) (List.replicate (m + 1) 'a') = ([], some tooLongMsg) := by
  rw [List.replicate_succ]
  have hdrop : ('a' :: List.replicate m 'a').dropWhile (fun x => x ≠ '\n') = [] := by
    rw [← List.replicate_succ]
    exact (repl_a_shape (m + 1)).2
  have hlen : ¬ utf8Len (('a' :: List.replicate m 'a').takeWhile (fun x => x ≠ '\n'))
      ≤ maxScanTokenSize := by
    rw [show ('a' :: List.replicate m 'a').takeWhile (fun x => x ≠ '\n')
          = 'a' :: List.replicate m 'a' by rw [← List.replicate_succ]; exact (repl_a_shape (m + 1)).1,
        ← List.replicate_succ, utf8Len_repl_a]
    omega
  simp only [scanStep, hdrop, if_neg hlen]

/-- A linter stdout consisting of one 65537-byte line. -/
def longLine : String := String.mk (List.replicate 65537 'a')

/-- C7 counterexample: for a successful linter run whose standard output is
one line longer than the 64 KiB scanner token limit, the bridge produces
no Warning finding at all for that line and returns a non-nil scanner
error, although the tool ran and produced standard output — the claim
requires one verbatim Warning per output line and an Error finding only
when the tool could not run with no output. -/
theorem c7_counterexample :
    (⟨false, longLine, ""⟩ : LintExec).failed = false
    ∧ longLine ≠ ""
    ∧ runPuppetLint "m.pp" ⟨false, longLine, ""⟩
        = ([], some ("error parsing puppet-lint output: " ++ tooLongMsg)) := by
  refine ⟨rfl, ?_, ?_⟩
  · intro h
    have h2 : (List.replicate 65537 'a').length = (0 : Nat) :=
      congrArg (fun s => s.data.length) h
    rw [List.length_replicate] at h2
    exact absurd h2 (by decide)
  · have hscan : scanLinesErr longLine = ([], some tooLongMsg) := by
      unfold scanLinesErr
      rw [show longLine.toList = List.replicate 65537 'a' from rfl, List.length_replicate,
          show (65537 : Nat) = 65536 + 1 from rfl]
      exact scanStep_too_long 65536 65536 (by decide)
    unfold runPuppetLint
    rw [if_neg (by simp)]
    rw [hscan]
    rfl

/-- C7 (amended): when the linter cannot run and produced no standard
output at all, the bridge returns one Error value carrying the tool's
trimmed error text and the per-file scan emits exactly one Error finding
before running the remaining static checks; each line of the standard
output becomes exactly one Warning finding verbatim provided every
newline-separated segment of the output is under the 64 KiB scanner token
limit — a segment at or over the limit instead stops the scanner,
returning the Warnings already yielded together with the token-too-long
error — and the remaining static checks run in every case. -/
theorem c7_linter_bridge :
    (∀ (pathS : String) (ex : LintExec), ex.failed = true → ex.stdout = "" →
       runPuppetLint pathS ex = ([], some (trimS ex.stderr)))
    ∧ (∀ (pathS : String) (ex : LintExec), ¬(ex.failed = true ∧ ex.stdout = "") →
       (∀ l ∈ splitS ex.stdout "\n", utf8Len l.toList < maxScanTokenSize) →
       runPuppetLint pathS ex
         = ((scanLines ex.stdout).map (fun l => ⟨pathS, .warning, l⟩), none))
    ∧ (∀ (pathS content : String) (ex : LintExec), ex.failed = true → ex.stdout = "" →
       puppetScanFile pathS ⟨ex, .content content⟩
         = ⟨pathS, .error, "puppet-lint error: " ++ trimS ex.stderr⟩ :: staticChecks pathS content)
    ∧ (∀ (pathS content : String) (ex : LintExec), (runPuppetLint pathS ex).2 = none →
       puppetScanFile pathS ⟨ex, .content content⟩
         = (runPuppetLint pathS ex).1 ++ staticChecks pathS content)
    ∧ (∀ (pathS content e : String) (ex : LintExec), (runPuppetLint pathS ex).2 = some e →
       puppetScanFile pathS ⟨ex, .content content⟩
         = ⟨pathS, .error, "puppet-lint error: " ++ e⟩
             :: (runPuppetLint pathS ex).1 ++ staticChecks pathS content) := by
  have hfit : ∀ (ex : LintExec), ¬(ex.failed = true ∧ ex.stdout = "") →
      (∀ l ∈ splitS ex.stdout "\n", utf8Len l.toList < maxScanTokenSize) →
      scanLinesErr ex.stdout = (scanLines ex.stdout, none) := by
    intro ex _ hf
    unfold scanLinesErr scanLines
    refine scanStep_eq_of_fit _ _ (Nat.le_refl _) (fun l hl => ?_)
    have hmem : String.mk l ∈ splitS ex.stdout "\n" := by
      unfold splitS
      exact List.mem_map_of_mem _ (by simpa [String.toList] using hl)
    simpa [String.toList] using hf _ hmem
  refine ⟨?_, ?_, ?_, ?_, ?_⟩
  · intro pathS ex h1 h2
    simp [runPuppetLint, h1, h2]
  · intro pathS ex h1 h2
    have h3 := hfit ex h1 h2
    simp [runPuppetLint, h1, h3]
  · intro pathS content ex h1 h2
    have hc : ex.failed = true ∧ ex.stdout = "" := ⟨h1, h2⟩
    simp [puppetScanFile, runPuppetLint, hc]
  · intro pathS content ex h1
    simp [puppetScanFile, h1]
  · intro pathS content e ex h1
    simp [puppetScanFile, h1]

/-- C7 witness: the amended theorem applied to a short two-line output and
to a failed run with empty output. -/
theorem c7_witness :
    runPuppetLint "m.pp" ⟨false, "warning: indent\nerror: name\n", ""⟩
      = ([⟨"m.pp", .warning, "warning: indent"⟩, ⟨"m.pp", .warning, "error: name"⟩], none)
    ∧ puppetScanFile "m.pp" ⟨⟨true, "", " tool missing "⟩, .content "class a b"⟩
      = ⟨"m.pp", .error, "puppet-lint error: tool missing"⟩ :: staticChecks "m.pp" "class a b" := by
  constructor
  · have h := c7_linter_bridge.2.1 "m.pp" ⟨false, "warning: indent\nerror: name\n", ""⟩
      (by simp) (by decide)
    rw [h]
    decide
  · have h := c7_linter_bridge.2.2.1 "m.pp" "class a b" ⟨true, "", " tool missing "⟩ rfl rfl
    rw [h]
    decide

/-! ### Claim C10 -/

theorem count_single_self (x : Finding) : [x].count x = 1 := by
  simp

theorem count_if_ne {c : Prop} [Decidable c] {x y : Finding} (h : x ≠ y) :
    (if c then [x] else []).count y = 0 := by
  split
  · exact count_single_ne h
  · rfl

theorem anySuffix_append (f : List Char → Bool) :
    ∀ (xs ys : List Char), f ys = true → anySuffix f (xs ++ ys) = true := by
  intro xs
  induction xs with
  | nil =>
    intro ys h
    cases ys with
    | nil => simpa [anySuffix] using h
    | cons c cs => simp [anySuffix, h]
  | cons c cs ih =>
    intro ys h
    simp [anySuffix, ih ys h]

theorem containsL_append_leads (pat : List Char) :
    ∀ (xs ys : List Char), leads pat ys = true → containsL pat (xs ++ ys) = true := by
  intro xs
  induction xs with
  | nil =>
    intro ys h
    cases ys with
    | nil =>
      cases pat with
      | nil => rfl
      | cons a as => cases h
    | cons c cs => simp [containsL, h]
  | cons c cs ih =>
    intro ys h
    simp [containsL, ih ys h]

theorem takeWhile_append_all {p : Char → Bool} :
    ∀ {xs : List Char}, (∀ x ∈ xs, p x = true) →
    ∀ (ys : List Char), (xs ++ ys).takeWhile p = xs ++ ys.takeWhile p := by
  intro xs
  induction xs with
  | nil => intro _ ys; simp
  | cons c cs ih =>
    intro h ys
    have hc : p c = true := h c (List.mem_cons_self c cs)
    simp [List.takeWhile_cons, hc, ih (fun x hx => h x (List.mem_cons_of_mem _ hx)) ys]

theorem take2_of_lit {pre : String} {c₁ c₂ : Char} {cs : List Char}
    (h : pre.data = c₁ :: c₂ :: cs) (k k' : String) :
    ((pre ++ k) ++ k').data.take 2 = [c₁, c₂] := by
  simp [String.data_append, h]

theorem finding_ne_of_take2 {p q : String} {s₁ s₂ : Severity} {m₁ m₂ : String}
    (h : m₁.data.take 2 ≠ m₂.data.take 2) : (⟨p, s₁, m₁⟩ : Finding) ≠ ⟨q, s₂, m₂⟩ :=
  finding_ne_of_message (fun he => h (he ▸ rfl))

/-- C10: a manifest whose text contains a lowercase password assignment of
the form password => 'value' is reported twice by the static checks: once
as the hardcoded-password Error (first match only) and once as the
disallowed parameter password Warning; both findings also appear in the
per-file scan output. -/
theorem c10_password_reported_twice (pth a v b content : String)
    (hc : content = a ++ "password => '" ++ v ++ "'" ++ b)
    (hv : ∀ c ∈ v.data, c ≠ '\n') :
    (staticChecks pth content).count ⟨pth, .error, "Possible hardcoded password detected"⟩ = 1
    ∧ (staticChecks pth content).count ⟨pth, .warning, "Disallowed parameter 'password' used"⟩ = 1
    ∧ ∀ ex : LintExec,
        (⟨pth, .error, "Possible hardcoded password detected"⟩ : Finding)
          ∈ puppetScanFile pth ⟨ex, .content content⟩
        ∧ (⟨pth, .warning, "Disallowed parameter 'password' used"⟩ : Finding)
          ∈ puppetScanFile pth ⟨ex, .content content⟩ := by
  have hdata : content.data
      = a.data ++ ('p' :: 'a' :: 's' :: 's' :: 'w' :: 'o' :: 'r' :: 'd' ::
          ' ' :: '=' :: '>' :: ' ' :: '\'' :: (v.data ++ ('\'' :: b.data))) := by
    rw [hc]
    simp [String.data_append]
  have hkey : ((v.data ++ ('\'' :: b.data)).takeWhile (fun c => c ≠ '\n')).any
      (fun c => c = '"' || c = '\'') = true := by
    have hall : ∀ x ∈ v.data, (fun c => decide (c ≠ '\n')) x = true := by
      intro x hx
      simpa using hv x hx
    rw [takeWhile_append_all hall]
    refine List.any_eq_true.mpr ⟨'\'', ?_, by decide⟩
    refine List.mem_append_right _ ?_
    simp [List.takeWhile_cons]
  have hmatch : matchPwAt ('p' :: 'a' :: 's' :: 's' :: 'w' :: 'o' :: 'r' :: 'd' ::
      ' ' :: '=' :: '>' :: ' ' :: '\'' :: (v.data ++ ('\'' :: b.data))) = true := hkey
  have hpw : hasHardcodedPw content = true := by
    unfold hasHardcodedPw
    simp only [String.toList]
    rw [hdata]
    exact anySuffix_append _ _ _ hmatch
  have hcontains : containsS content "password" = true := by
    unfold containsS
    simp only [String.toList]
    rw [hdata]
    exact containsL_append_leads _ _ _ rfl
  have hdepW : ∀ f ∈ depPuppetCheck pth content,
      f.severity = Severity.warning ∧ f.message.data.take 2 = ['D', 'e'] := by
    intro f hf
    simp only [depPuppetCheck, List.mem_flatMap] at hf
    obtain ⟨dr, _, hin⟩ := hf
    split at hin
    · simp only [List.mem_singleton] at hin
      subst hin
      exact ⟨rfl, take2_of_lit (show ("Deprecated resource type '" : String).data
        = 'D' :: 'e' :: ("precated resource type '").data by decide) dr "' used"⟩
    · cases hin
  have hclsW : ∀ f ∈ classDeclCheck pth content,
      f.severity = Severity.warning ∧ f.message = "No class declaration found in manifest" := by
    intro f hf
    unfold classDeclCheck at hf
    split at hf
    · cases hf
    · simp only [List.mem_singleton] at hf
      subst hf
      exact ⟨rfl, rfl⟩
  have htrailW : ∀ f ∈ trailingCheck pth content,
      f.severity = Severity.warning ∧ f.message.data.head? = some 'T' := by
    intro f hf
    simp only [trailingCheck, List.mem_flatMap] at hf
    obtain ⟨ia, _, hin⟩ := hf
    split at hin
    · simp only [List.mem_singleton] at hin
      subst hin
      exact ⟨rfl, msgHead (show ("Trailing whitespace on line " : String).data.head?
        = some 'T' by decide) _⟩
    · cases hin
  have hdisW : ∀ f ∈ disallowedCheck pth content, f.severity = Severity.warning := by
    intro f hf
    simp only [disallowedCheck, List.mem_flatMap] at hf
    obtain ⟨param, _, hin⟩ := hf
    split at hin
    · simp only [List.mem_singleton] at hin
      subst hin
      rfl
    · cases hin
  have sev0 : ∀ {l : List Finding},
      (∀ f ∈ l, f.severity = Severity.warning) → ∀ (q m : String),
      l.count ⟨q, .error, m⟩ = 0 := by
    intro l hl q m
    refine count_eq_zero_of_forall_ne (fun f hf he => ?_)
    have hw := hl f hf
    rw [he] at hw
    exact Severity.noConfusion hw
  have herr1 : (staticChecks pth content).count
      ⟨pth, .error, "Possible hardcoded password detected"⟩ = 1 := by
    simp only [staticChecks, List.count_append]
    rw [sev0 (fun f hf => (hdepW f hf).1) pth _,
        sev0 (fun f hf => (hclsW f hf).1) pth _,
        sev0 (fun f hf => (htrailW f hf).1) pth _,
        sev0 hdisW pth _]
    have hhc : hardcodedPwCheck pth content
        = [⟨pth, .error, "Possible hardcoded password detected"⟩] := by
      unfold hardcodedPwCheck
      rw [hpw]
      simp
    rw [hhc, count_single_self]
  have hwarn1 : (staticChecks pth content).count
      ⟨pth, .warning, "Disallowed parameter 'password' used"⟩ = 1 := by
    simp only [staticChecks, List.count_append]
    have hde : (depPuppetCheck pth content).count
        ⟨pth, .warning, "Disallowed parameter 'password' used"⟩ = 0 := by
      refine count_eq_zero_of_forall_ne (fun f hf he => ?_)
      have h2 := (hdepW f hf).2
      rw [he] at h2
      exact absurd (show ("Disallowed parameter 'password' used" : String).data.take 2
        = ['D', 'e'] from h2) (by decide)
    have hcl : (classDeclCheck pth content).count
        ⟨pth, .warning, "Disallowed parameter 'password' used"⟩ = 0 := by
      refine count_eq_zero_of_forall_ne (fun f hf he => ?_)
      have h2 := (hclsW f hf).2
      rw [he] at h2
      exact absurd (show ("Disallowed parameter 'password' used" : String)
        = "No class declaration found in manifest" from h2) (by decide)
    have hha : (hardcodedPwCheck pth content).count
        ⟨pth, .warning, "Disallowed parameter 'password' used"⟩ = 0 := by
      unfold hardcodedPwCheck
      rw [hpw]
      simp only [if_pos rfl]
      exact count_single_ne (finding_ne_of_severity (by decide))
    have htr : (trailingCheck pth content).count
        ⟨pth, .warning, "Disallowed parameter 'password' used"⟩ = 0 := by
      refine count_eq_zero_of_forall_ne (fun f hf he => ?_)
      have h2 := (htrailW f hf).2
      rw [he] at h2
      exact absurd (show ("Disallowed parameter 'password' used" : String).data.head?
        = some 'T' from h2) (by decide)
    have hdi : (disallowedCheck pth content).count
        ⟨pth, .warning, "Disallowed parameter 'password' used"⟩ = 1 := by
      simp only [disallowedCheck, disallowedParams, List.flatMap_cons, List.flatMap_nil,
        List.append_nil, List.count_append]
      rw [count_if_ne (finding_ne_of_message (by decide)),
          count_if_ne (finding_ne_of_message (by decide)),
          count_if_ne (finding_ne_of_message (by decide)),
          count_if_ne (finding_ne_of_message (by decide)),
          if_pos hcontains]
      rw [count_if_ne (finding_ne_of_message (by decide)),
          count_if_ne (finding_ne_of_message (by decide)),
          count_if_ne (finding_ne_of_message (by decide)),
          count_if_ne (finding_ne_of_message (by decide)),
          count_if_ne (finding_ne_of_message (by decide))]
      have hmsg : "Disallowed parameter '" ++ "password" ++ "' used"
          = "Disallowed parameter 'password' used" := by decide
      rw [hmsg, count_single_self]
    rw [hde, hcl, hha, htr, hdi]
  refine ⟨herr1, hwarn1, ?_⟩
  intro ex
  have m1 : (⟨pth, .error, "Possible hardcoded password detected"⟩ : Finding)
      ∈ staticChecks pth content := by
    by_contra hnot
    rw [List.count_eq_zero.mpr hnot] at herr1
    exact absurd herr1 (by decide)
  have m2 : (⟨pth, .warning, "Disallowed parameter 'password' used"⟩ : Finding)
      ∈ staticChecks pth content := by
    by_contra hnot
    rw [List.count_eq_zero.mpr hnot] at hwarn1
    exact absurd hwarn1 (by decide)
  exact ⟨List.mem_append_right _ m1, List.mem_append_right _ m2⟩

/-- C10 witness: the theorem applied to a concrete manifest text. -/
theorem c10_witness :
    (staticChecks "m.pp" ("node x " ++ "password => '" ++ "supersecret" ++ "'" ++ " y")).count
      ⟨"m.pp", .error, "Possible hardcoded password detected"⟩ = 1
    ∧ (staticChecks "m.pp" ("node x " ++ "password => '" ++ "supersecret" ++ "'" ++ " y")).count
      ⟨"m.pp", .warning, "Disallowed parameter 'password' used"⟩ = 1 := by
  have h := c10_password_reported_twice "m.pp" "node x " "supersecret" " y"
    ("node x " ++ "password => '" ++ "supersecret" ++ "'" ++ " y") rfl (by decide)
  exact ⟨h.1, h.2.1⟩


/-! ### Claim C8 -/

theorem stringDataInj {x y : String} (h : x.data = y.data) : x = y := by
  cases x
  cases y
  exact congrArg String.mk h

theorem insertNew_nodup {l : List String} {k : String} (h : l.Nodup) : (insertNew l k).Nodup := by
  unfold insertNew
  split
  · exact h
  · next hk =>
    refine List.nodup_append.mpr ⟨h, List.nodup_singleton k, ?_⟩
    intro a ha hb
    rw [List.mem_singleton] at hb
    exact hk (hb ▸ ha)

theorem foldVars_nodup : ∀ (vs : List (String × YVal)) (acc : List String), acc.Nodup →
    (vs.foldl (fun a kv => insertNew a kv.1) acc).Nodup := by
  intro vs
  induction vs with
  | nil => intro acc h; exact h
  | cons kv rest ih => intro acc h; exact ih _ (insertNew_nodup h)

theorem definedVarsOf_nodup (plays : List Play) : (definedVarsOf plays).Nodup := by
  have hgen : ∀ (ps : List Play) (acc : List String), acc.Nodup →
      (ps.foldl (fun acc pl => pl.vars.foldl (fun a kv => insertNew a kv.1) acc) acc).Nodup := by
    intro ps
    induction ps with
    | nil => intro acc h; exact h
    | cons pl rest ih => intro acc h; exact ih _ (foldVars_nodup _ _ h)
  exact hgen plays [] List.nodup_nil

theorem count_map_inj {g : String → Finding} (hg : ∀ x y, g x = g y → x = y) :
    ∀ (l : List String) (v : String), (l.map g).count (g v) = l.count v := by
  intro l v
  induction l with
  | nil => rfl
  | cons x xs ih =>
    simp only [List.map_cons, List.count_cons, ih]
    by_cases hxv : x = v
    · subst hxv
      simp
    · rw [show (g x == g v) = false from beq_eq_false_iff_ne.mpr (fun he => hxv (hg _ _ he)),
          show (x == v) = false from beq_eq_false_iff_ne.mpr hxv]

theorem unusedMsg_inj (p : String) : ∀ x y : String,
    (⟨p, .warning, "Variable '" ++ x ++ "' defined but not used"⟩ : Finding)
      = ⟨p, .warning, "Variable '" ++ y ++ "' defined but not used"⟩ → x = y := by
  intro x y h
  have hm := congrArg Finding.message h
  have hd := congrArg String.data hm
  simp only [String.data_append, List.append_assoc] at hd
  have h1 := List.append_cancel_left hd
  exact stringDataInj (List.append_cancel_right h1)

theorem count_filter_nodup {l : List String} (h : l.Nodup) (q : String → Bool) (v : String) :
    (l.filter q).count v = if v ∈ l ∧ q v = true then 1 else 0 := by
  by_cases hc : v ∈ l ∧ q v = true
  · rw [if_pos hc]
    exact List.count_eq_one_of_mem (h.filter q) (List.mem_filter.mpr ⟨hc.1, hc.2⟩)
  · rw [if_neg hc]
    exact List.count_eq_zero_of_not_mem (fun hm => hc (List.mem_filter.mp hm))

theorem taskFindings_shape (p : String) (t : Task) :
    ∀ f ∈ taskFindings p t, f.severity = Severity.error ∨ f.message.data.head? ≠ some 'V' := by
  intro f hf
  simp only [taskFindings, List.mem_append] at hf
  rcases hf with ((hb | hn) | hd) | hs
  · unfold becomeCheck at hb
    split at hb
    · simp only [List.mem_singleton] at hb
      subst hb
      exact Or.inr (show ("Task missing 'become' field (no privilege escalation specified)"
        : String).data.head? ≠ some 'V' by decide)
    · simp only [List.mem_singleton] at hb
      subst hb
      exact Or.inr (show ("'become' is false in task (possible privilege issue)"
        : String).data.head? ≠ some 'V' by decide)
    · cases hb
  · unfold nameCheck at hn
    split at hn
    · cases hn
    · simp only [List.mem_singleton] at hn
      subst hn
      exact Or.inr (show ("Task missing required field 'name'"
        : String).data.head? ≠ some 'V' by decide)
  · simp only [depModCheck, List.mem_flatMap] at hd
    obtain ⟨kv, _, hin⟩ := hd
    split at hin
    · split at hin
      · simp only [List.mem_singleton] at hin
        subst hin
        refine Or.inr (fun hcon => ?_)
        have hUU : ∀ (k m : String),
            ((("Use of deprecated module '" ++ k) ++ "': ") ++ m).data.head? = some 'U' :=
          fun k m => msgHead (msgHead (msgHead (show ("Use of deprecated module '"
            : String).data.head? = some 'U' by decide) k) "': ") m
        exact absurd ((hUU kv.1 _).symm.trans hcon) (by decide)
      · cases hin
    · cases hin
  · simp only [ansSecretCheck, List.mem_flatMap] at hs
    obtain ⟨kv, _, hin⟩ := hs
    split at hin
    · split at hin
      · split at hin
        · simp only [List.mem_singleton] at hin
          subst hin
          exact Or.inl rfl
        · cases hin
      · cases hin
    · cases hin

theorem playFindings_shape (p : String) (pl : Play) :
    ∀ f ∈ playFindings p pl, f.severity = Severity.error ∨ f.message.data.head? ≠ some 'V' := by
  intro f hf
  simp only [playFindings, List.mem_append] at hf
  rcases hf with hh | ht
  · unfold hostsCheck at hh
    split at hh
    · simp only [List.mem_singleton] at hh
      subst hh
      exact Or.inr (show ("Play missing required field 'hosts'"
        : String).data.head? ≠ some 'V' by decide)
    · cases hh
  · simp only [List.mem_flatMap] at ht
    obtain ⟨t, _, hin⟩ := ht
    exact taskFindings_shape p t f hin

/-- C8 (amended): with the used set being exactly what the code's splitting
heuristic extracts (extractUsed: for a string value containing both
double-brace delimiters, each segment after an opening delimiter
contributes the trimmed text before the next closing delimiter inside that
segment, or the whole remainder of the segment when it has none), each
defined vars key absent from that set yields exactly one unused-variable
Warning and each present key yields none. -/
theorem c8_unused_variable_warnings (p : String) (plays : List Play) (v : String) :
    (ansibleScanFile p plays).count
        ⟨p, .warning, "Variable '" ++ v ++ "' defined but not used"⟩
      = if v ∈ definedVarsOf plays ∧ v ∉ usedList plays then 1 else 0 := by
  have hheadv : ∀ (x : String),
      (("Variable '" ++ x) ++ "' defined but not used").data.head? = some 'V' :=
    fun x => msgHead (msgHead (show ("Variable '" : String).data.head?
      = some 'V' by decide) x) _
  have h0 : (plays.flatMap (playFindings p)).count
      ⟨p, .warning, "Variable '" ++ v ++ "' defined but not used"⟩ = 0 := by
    refine count_eq_zero_of_forall_ne (fun f hf he => ?_)
    simp only [List.mem_flatMap] at hf
    obtain ⟨pl, _, hin⟩ := hf
    rcases playFindings_shape p pl f hin with hsev | hhead
    · rw [he] at hsev
      exact Severity.noConfusion hsev
    · rw [he] at hhead
      exact hhead (hheadv v)
  simp only [ansibleScanFile, List.count_append]
  rw [h0, Nat.zero_add]
  unfold unusedWarnings
  rw [count_map_inj (unusedMsg_inj p) _ v, count_filter_nodup (definedVarsOf_nodup plays)]
  by_cases hu : v ∈ usedList plays <;> by_cases hd : v ∈ definedVarsOf plays <;>
    simp [hu, hd]

/-- Parsed playbook refuting C8 as stated: the value of attribute foo
holds closing braces before an opening-brace segment that never closes, so
no identifier appears between delimiters under the claim reading, yet the
code records b as used. -/
def c8plays : List Play :=
  [⟨some (.s "all"), [("b", .i 1)],
    [[("name", .s "t"), ("become", .boolean true), ("foo", .s "x\x7d\x7d\x7b\x7b b")]]⟩]

/-- C8 counterexample: b is defined, no identifier appears between the
double-brace delimiters of any string value under the claim reading, and
still the scan emits no unused-variable Warning for b (the code counted b
as used). -/
theorem c8_counterexample :
    "b" ∈ definedVarsOf c8plays
    ∧ specUsedList c8plays = []
    ∧ ansibleScanFile "pb.yml" c8plays = [] := by
  refine ⟨by decide, by decide, by decide⟩


/-! ### Claim C2 -/

/-- Same Go map content up to iteration order, for one task. -/
def TaskEquiv (t₁ t₂ : Task) : Prop :=
  t₁.Perm t₂ ∧ (t₁.map Prod.fst).Nodup

/-- Same play content: identical hosts value, vars map equal up to
iteration order (with unique keys, as a Go map has), tasks pointwise
equivalent. -/
def PlayEquiv (a b : Play) : Prop :=
  a.hosts = b.hosts ∧ a.vars.Perm b.vars ∧ (a.vars.map Prod.fst).Nodup
    ∧ List.Forall₂ TaskEquiv a.tasks b.tasks

/-- Same decoded playbook content up to Go map iteration orders: what two
runs of the scanner observe for one unchanged file. -/
def TreeEquiv (f₁ f₂ : List Play) : Prop :=
  List.Forall₂ PlayEquiv f₁ f₂

theorem lookupA_perm {α : Type} {t₁ t₂ : List (String × α)} (h : t₁.Perm t₂) :
    ∀ (k : String), (t₁.map Prod.fst).Nodup → lookupA t₁ k = lookupA t₂ k := by
  induction h with
  | nil => intro k _; rfl
  | cons x h ih =>
    intro k nd
    obtain ⟨a, w⟩ := x
    simp only [List.map_cons, List.nodup_cons] at nd
    by_cases hk : a = k
    · simp [lookupA, hk]
    · simp [lookupA, hk, ih k nd.2]
  | swap x y l =>
    intro k nd
    obtain ⟨a, w⟩ := x
    obtain ⟨b, u⟩ := y
    simp only [List.map_cons, List.nodup_cons, List.mem_cons] at nd
    have hab : b ≠ a := fun he => nd.1 (Or.inl he)
    by_cases hbk : b = k <;> by_cases hak : a = k
    · exact absurd (hbk.trans hak.symm) hab
    · simp [lookupA, hbk, hak]
    · simp [lookupA, hbk, hak]
    · simp [lookupA, hbk, hak]
  | trans h₁ h₂ ih₁ ih₂ =>
    intro k nd
    rw [ih₁ k nd]
    exact ih₂ k ((h₁.map Prod.fst).nodup nd)

theorem flatMap_perm_forall₂ {α : Type} {R : α → α → Prop} {l₁ l₂ : List α}
    {f : α → List Finding}
    (h : List.Forall₂ R l₁ l₂) (hf : ∀ a b, R a b → (f a).Perm (f b)) :
    (l₁.flatMap f).Perm (l₂.flatMap f) := by
  induction h with
  | nil => exact List.Perm.refl _
  | cons hab h ih => simpa using (hf _ _ hab).append ih

theorem becomeCheck_congr {p : String} {t₁ t₂ : Task} (h : TaskEquiv t₁ t₂) :
    becomeCheck p t₁ = becomeCheck p t₂ := by
  unfold becomeCheck
  rw [lookupA_perm h.1 "become" h.2]

theorem nameCheck_congr {p : String} {t₁ t₂ : Task} (h : TaskEquiv t₁ t₂) :
    nameCheck p t₁ = nameCheck p t₂ := by
  unfold nameCheck
  rw [lookupA_perm h.1 "name" h.2]

theorem taskFindings_perm {p : String} {t₁ t₂ : Task} (h : TaskEquiv t₁ t₂) :
    (taskFindings p t₁).Perm (taskFindings p t₂) := by
  unfold taskFindings
  rw [becomeCheck_congr h, nameCheck_congr h]
  exact ((List.Perm.refl _).append (h.1.flatMap_right _)).append (h.1.flatMap_right _)

theorem playFindings_perm {p : String} {a b : Play} (h : PlayEquiv a b) :
    (playFindings p a).Perm (playFindings p b) := by
  unfold playFindings
  rw [show hostsCheck p a = hostsCheck p b from by unfold hostsCheck; rw [h.1]]
  exact (List.Perm.refl _).append
    (flatMap_perm_forall₂ h.2.2.2 (fun t₁ t₂ ht => taskFindings_perm ht))

theorem mem_insertNew {l : List String} {k v : String} :
    v ∈ insertNew l k ↔ v ∈ l ∨ v = k := by
  unfold insertNew
  split
  · next hk =>
    constructor
    · exact Or.inl
    · rintro (h | rfl)
      · exact h
      · exact hk
  · simp [List.mem_append]

theorem mem_foldVars : ∀ (vs : List (String × YVal)) (acc : List String) (v : String),
    v ∈ vs.foldl (fun a kv => insertNew a kv.1) acc ↔ v ∈ acc ∨ v ∈ vs.map Prod.fst := by
  intro vs
  induction vs with
  | nil => intro acc v; simp
  | cons kv rest ih =>
    intro acc v
    simp only [List.foldl_cons, ih, mem_insertNew, List.map_cons, List.mem_cons]
    tauto

theorem mem_definedVarsOf : ∀ (plays : List Play) (acc : List String) (v : String),
    v ∈ plays.foldl (fun acc pl => pl.vars.foldl (fun a kv => insertNew a kv.1) acc) acc
      ↔ v ∈ acc ∨ ∃ pl ∈ plays, v ∈ pl.vars.map Prod.fst := by
  intro plays
  induction plays with
  | nil => intro acc v; simp
  | cons pl rest ih =>
    intro acc v
    simp only [List.foldl_cons, ih, mem_foldVars, List.mem_cons, exists_eq_or_imp]
    tauto

theorem forall₂_mem_left {α : Type} {R : α → α → Prop} :
    ∀ {l₁ l₂ : List α}, List.Forall₂ R l₁ l₂ → ∀ {a}, a ∈ l₁ → ∃ b ∈ l₂, R a b := by
  intro l₁ l₂ h
  induction h with
  | nil => intro a ha; cases ha
  | cons hab h ih =>
    intro a ha
    rcases List.mem_cons.mp ha with rfl | ha
    · exact ⟨_, List.mem_cons_self _ _, hab⟩
    · obtain ⟨b, hb, hr⟩ := ih ha
      exact ⟨b, List.mem_cons_of_mem _ hb, hr⟩

theorem forall₂_mem_right {α : Type} {R : α → α → Prop} :
    ∀ {l₁ l₂ : List α}, List.Forall₂ R l₁ l₂ → ∀ {b}, b ∈ l₂ → ∃ a ∈ l₁, R a b := by
  intro l₁ l₂ h
  induction h with
  | nil => intro b hb; cases hb
  | cons hab h ih =>
    intro b hb
    rcases List.mem_cons.mp hb with rfl | hb
    · exact ⟨_, List.mem_cons_self _ _, hab⟩
    · obtain ⟨a, ha, hr⟩ := ih hb
      exact ⟨a, List.mem_cons_of_mem _ ha, hr⟩

theorem definedVarsOf_mem_iff {f₁ f₂ : List Play} (h : TreeEquiv f₁ f₂) (v : String) :
    v ∈ definedVarsOf f₁ ↔ v ∈ definedVarsOf f₂ := by
  unfold definedVarsOf
  rw [mem_definedVarsOf, mem_definedVarsOf]
  simp only [List.not_mem_nil, false_or]
  constructor
  · rintro ⟨pl, hpl, hv⟩
    obtain ⟨pl', hpl', hrel⟩ := forall₂_mem_left h hpl
    exact ⟨pl', hpl', ((hrel.2.1.map Prod.fst).mem_iff).mp hv⟩
  · rintro ⟨pl', hpl', hv⟩
    obtain ⟨pl, hpl, hrel⟩ := forall₂_mem_right h hpl'
    exact ⟨pl, hpl, ((hrel.2.1.map Prod.fst).mem_iff).mpr hv⟩

theorem definedVarsOf_perm {f₁ f₂ : List Play} (h : TreeEquiv f₁ f₂) :
    (definedVarsOf f₁).Perm (definedVarsOf f₂) := by
  rw [List.perm_ext_iff_of_nodup (definedVarsOf_nodup f₁) (definedVarsOf_nodup f₂)]
  exact fun v => definedVarsOf_mem_iff h v

theorem usedList_mem_iff {f₁ f₂ : List Play} (h : TreeEquiv f₁ f₂) (v : String) :
    v ∈ usedList f₁ ↔ v ∈ usedList f₂ := by
  unfold usedList
  simp only [List.mem_flatMap]
  constructor
  · rintro ⟨pl, hpl, t, ht, hvt⟩
    obtain ⟨pl', hpl', hrel⟩ := forall₂_mem_left h hpl
    obtain ⟨t', ht', htr⟩ := forall₂_mem_left hrel.2.2.2 ht
    exact ⟨pl', hpl', t', ht', ((htr.1.flatMap_right _).mem_iff).mp hvt⟩
  · rintro ⟨pl', hpl', t', ht', hvt⟩
    obtain ⟨pl, hpl, hrel⟩ := forall₂_mem_right h hpl'
    obtain ⟨t, ht, htr⟩ := forall₂_mem_right hrel.2.2.2 ht'
    exact ⟨pl, hpl, t, ht, ((htr.1.flatMap_right _).mem_iff).mpr hvt⟩

theorem unusedWarnings_perm {p : String} {f₁ f₂ : List Play} (h : TreeEquiv f₁ f₂) :
    (unusedWarnings p f₁).Perm (unusedWarnings p f₂) := by
  unfold unusedWarnings
  have hfil : (definedVarsOf f₁).filter (fun v => !(decide (v ∈ usedList f₁)))
      = (definedVarsOf f₁).filter (fun v => !(decide (v ∈ usedList f₂))) := by
    refine List.filter_congr (fun v _ => ?_)
    have hiff := usedList_mem_iff h v
    by_cases hu : v ∈ usedList f₁
    · simp [hu, hiff.mp hu]
    · have hu2 : v ∉ usedList f₂ := fun hc => hu (hiff.mpr hc)
      simp [hu, hu2]
  rw [hfil]
  exact ((definedVarsOf_perm h).filter _).map _

theorem ansibleScanFile_perm (p : String) {f₁ f₂ : List Play} (h : TreeEquiv f₁ f₂) :
    (ansibleScanFile p f₁).Perm (ansibleScanFile p f₂) := by
  unfold ansibleScanFile
  exact (flatMap_perm_forall₂ h (fun a b hr => playFindings_perm hr)).append
    (unusedWarnings_perm h)

/-- Same JustAttributes content up to Go map iteration order. -/
def TFBodyEquiv : TFBody → TFBody → Prop
  | .attrsErr, .attrsErr => True
  | .attrs a₁, .attrs a₂ => a₁.Perm a₂ ∧ (a₁.map Prod.fst).Nodup
  | _, _ => False

/-- Same block content up to attribute iteration order. -/
def TFBlockEquiv : TFBlock → TFBlock → Prop
  | .resource l₁ b₁, .resource l₂ b₂ => l₁ = l₂ ∧ TFBodyEquiv b₁ b₂
  | .variableBlock l₁ b₁, .variableBlock l₂ b₂ => l₁ = l₂ ∧ TFBodyEquiv b₁ b₂
  | _, _ => False

/-- Same parsed .tf content up to attribute iteration orders. -/
def TFContentEquiv : TFContent → TFContent → Prop
  | .parseErr d₁, .parseErr d₂ => d₁ = d₂
  | .partialErr d₁, .partialErr d₂ => d₁ = d₂
  | .blocks b₁, .blocks b₂ => List.Forall₂ TFBlockEquiv b₁ b₂
  | _, _ => False

theorem secretStep_perm {p : String} {a₁ a₂ : List (String × AttrResult)}
    (hp : a₁.Perm a₂) : (secretStep p a₁).Perm (secretStep p a₂) :=
  hp.flatMap_right _

theorem tagsAndSecret_perm {p : String} {a₁ a₂ : List (String × AttrResult)}
    (hp : a₁.Perm a₂) (nd : (a₁.map Prod.fst).Nodup) :
    (tagsAndSecret p a₁).Perm (tagsAndSecret p a₂) := by
  have hl : lookupA a₁ "tags" = lookupA a₂ "tags" := lookupA_perm hp "tags" nd
  cases h2 : lookupA a₂ "tags" with
  | none =>
    simp only [tagsAndSecret, hl, h2]
    exact (secretStep_perm hp).cons _
  | some r =>
    cases r with
    | err =>
      simp only [tagsAndSecret, hl, h2]
      exact List.Perm.refl _
    | null =>
      simp only [tagsAndSecret, hl, h2]
      exact List.Perm.refl _
    | val v =>
      cases h3 : v.objFields with
      | none =>
        simp only [tagsAndSecret, hl, h2, h3]
        exact List.Perm.refl _
      | some fields =>
        simp only [tagsAndSecret, hl, h2, h3]
        exact (List.Perm.refl _).append (secretStep_perm hp)

theorem resourceBodyChecks_perm {p rt : String} {a₁ a₂ : List (String × AttrResult)}
    (hp : a₁.Perm a₂) (nd : (a₁.map Prod.fst).Nodup) :
    (resourceBodyChecks p rt a₁).Perm (resourceBodyChecks p rt a₂) := by
  have hl : lookupA a₁ "acl" = lookupA a₂ "acl" := lookupA_perm hp "acl" nd
  by_cases hrt : rt = "aws_s3_bucket"
  · cases h2 : lookupA a₂ "acl" with
    | none =>
      simp only [resourceBodyChecks, hrt, if_pos rfl, hl, h2]
      exact tagsAndSecret_perm hp nd
    | some r =>
      cases r with
      | err =>
        simp only [resourceBodyChecks, hrt, if_pos rfl, hl, h2]
        exact List.Perm.refl _
      | null =>
        simp only [resourceBodyChecks, hrt, if_pos rfl, hl, h2]
        exact tagsAndSecret_perm hp nd
      | val v =>
        simp only [resourceBodyChecks, hrt, if_pos rfl, hl, h2]
        exact (List.Perm.refl _).append (tagsAndSecret_perm hp nd)
  · simp only [resourceBodyChecks, if_neg hrt]
    exact tagsAndSecret_perm hp nd

theorem checkBlock_perm {p : String} {b₁ b₂ : TFBlock} (h : TFBlockEquiv b₁ b₂) :
    (checkBlock p b₁).Perm (checkBlock p b₂) := by
  cases b₁ with
  | resource l₁ body₁ =>
    cases b₂ with
    | resource l₂ body₂ =>
      obtain ⟨rfl, hb⟩ := h
      unfold checkBlock
      cases l₁ with
      | nil => exact List.Perm.refl _
      | cons rt rest =>
        cases rest with
        | nil => exact List.Perm.refl _
        | cons rn rest2 =>
          cases rest2 with
          | nil =>
            cases body₁ with
            | attrsErr =>
              cases body₂ with
              | attrsErr => exact List.Perm.refl _
              | attrs a₂ => exact absurd hb (by simp [TFBodyEquiv])
            | attrs a₁ =>
              cases body₂ with
              | attrsErr => exact absurd hb (by simp [TFBodyEquiv])
              | attrs a₂ =>
                exact (List.Perm.refl _).append (resourceBodyChecks_perm hb.1 hb.2)
          | cons _ _ => exact List.Perm.refl _
    | variableBlock l₂ body₂ => exact absurd h (by simp [TFBlockEquiv])
  | variableBlock l₁ body₁ =>
    cases b₂ with
    | resource l₂ body₂ => exact absurd h (by simp [TFBlockEquiv])
    | variableBlock l₂ body₂ =>
      obtain ⟨rfl, hb⟩ := h
      unfold checkBlock
      cases l₁ with
      | nil => exact List.Perm.refl _
      | cons vn rest =>
        cases rest with
        | nil =>
          cases body₁ with
          | attrsErr =>
            cases body₂ with
            | attrsErr => exact List.Perm.refl _
            | attrs a₂ => exact absurd hb (by simp [TFBodyEquiv])
          | attrs a₁ =>
            cases body₂ with
            | attrsErr => exact absurd hb (by simp [TFBodyEquiv])
            | attrs a₂ =>
              have hl : lookupA a₁ "default" = lookupA a₂ "default" :=
                lookupA_perm hb.1 "default" hb.2
              show (match lookupA a₁ "default" with
                    | some (AttrResult.val (CtyVal.str s)) =>
                      varSecretLoop p vn (lowerS vn) s tfSecretKeywords
                    | _ => []).Perm
                  (match lookupA a₂ "default" with
                    | some (AttrResult.val (CtyVal.str s)) =>
                      varSecretLoop p vn (lowerS vn) s tfSecretKeywords
                    | _ => [])
              rw [hl]
        | cons _ _ => exact List.Perm.refl _

theorem tfScanFile_perm (p : String) {c₁ c₂ : TFContent} (h : TFContentEquiv c₁ c₂) :
    (tfScanFile p c₁).Perm (tfScanFile p c₂) := by
  cases c₁ with
  | parseErr d₁ =>
    cases c₂ with
    | parseErr d₂ =>
      have hd : d₁ = d₂ := h
      rw [hd]
    | partialErr d₂ => exact absurd h (by simp [TFContentEquiv])
    | blocks b₂ => exact absurd h (by simp [TFContentEquiv])
  | partialErr d₁ =>
    cases c₂ with
    | parseErr d₂ => exact absurd h (by simp [TFContentEquiv])
    | partialErr d₂ =>
      have hd : d₁ = d₂ := h
      rw [hd]
    | blocks b₂ => exact absurd h (by simp [TFContentEquiv])
  | blocks b₁ =>
    cases c₂ with
    | parseErr d₂ => exact absurd h (by simp [TFContentEquiv])
    | partialErr d₂ => exact absurd h (by simp [TFContentEquiv])
    | blocks b₂ =>
      have hb : List.Forall₂ TFBlockEquiv b₁ b₂ := h
      exact flatMap_perm_forall₂ hb (fun x y hr => checkBlock_perm hr)

/-- Two decoded representations of the same unchanged playbook that two
runs may observe: the vars map of the single play iterated in the two
possible orders. -/
def c2plays₁ : List Play :=
  [⟨some (.s "all"), [("alpha", .i 1), ("beta", .i 2)],
    [[("name", .s "t"), ("become", .boolean true)]]⟩]

/-- The same playbook with the opposite vars iteration order. -/
def c2plays₂ : List Play :=
  [⟨some (.s "all"), [("beta", .i 2), ("alpha", .i 1)],
    [[("name", .s "t"), ("become", .boolean true)]]⟩]

theorem c2plays_equiv : TreeEquiv c2plays₁ c2plays₂ := by
  refine List.Forall₂.cons ⟨rfl, List.Perm.swap _ _ _, by decide, ?_⟩ List.Forall₂.nil
  exact List.Forall₂.cons ⟨List.Perm.refl _, by decide⟩ List.Forall₂.nil

/-- C2 counterexample: the two representations describe the same unchanged
file (TreeEquiv), yet the two scans return lists that are not equal — the
two unused-variable warnings come out in different orders. -/
theorem c2_counterexample :
    TreeEquiv c2plays₁ c2plays₂
    ∧ ansibleScanFile "p.yml" c2plays₁ ≠ ansibleScanFile "p.yml" c2plays₂ :=
  ⟨c2plays_equiv, by decide⟩

/-- C2 (amended): two runs over an unchanged tree (same decoded content,
Go map iteration orders arbitrary) produce finding lists that are
permutations of each other — equal as multisets — for the task-list
scanner and for the declarative scanner; byte-identical output holds only
when the randomized iteration orders coincide. -/
theorem c2_scan_permutation :
    (∀ (p : String) (f₁ f₂ : List Play), TreeEquiv f₁ f₂ →
       (ansibleScanFile p f₁).Perm (ansibleScanFile p f₂))
    ∧ (∀ (p : String) (c₁ c₂ : TFContent), TFContentEquiv c₁ c₂ →
       (tfScanFile p c₁).Perm (tfScanFile p c₂)) :=
  ⟨fun p _ _ h => ansibleScanFile_perm p h, fun p _ _ h => tfScanFile_perm p h⟩

/-- C2 witness: the amended theorem applied to the concrete pair of
representations. -/
theorem c2_witness :
    (ansibleScanFile "p.yml" c2plays₁).Perm (ansibleScanFile "p.yml" c2plays₂) :=
  c2_scan_permutation.1 "p.yml" c2plays₁ c2plays₂ c2plays_equiv

end InfraCheck
